import Mathlib

/-!
Verification of the `cog` configuration-lifecycle library.

Part 1 embeds the value-resolution engine (`pkg/defaults`, the package in
`src/unnamed/part_006`): Go reflection values of the three supported scalar
kinds plus nested structs are modelled by the mutual inductives `GoVal` and
`Fields`; `os.Getenv` is an explicit environment parameter `E : String → String`.

Part 2 embeds the update-transaction coordinator (`C[T]` in the `cog` package,
first document of `src/unnamed/part_001`): state, subscriber/callback
registries, `Update`, `notify`, `rollback`, `save`, and `Init`.  Go map
iteration order is unspecified, so every function that ranges over a map takes
the iteration order as an explicit list that must be a permutation of the map
entries.  Observable actions (subscriber invocations, goroutine dispatches,
the commit and the save) are recorded in an event trace.
-/

namespace Cog

/-! ### Go string parsing (strconv.Atoi, strconv.ParseBool) -/

/-- Decimal digits of a string tail, as in `strconv.ParseUint` base 10:
every character must be a digit, and there must be at least one. -/
def digitsVal : List Char → Option Nat
  | [] => none
  | [c] => if c.isDigit then some (c.toNat - '0'.toNat) else none
  | c :: rest =>
    if c.isDigit then
      match digitsVal rest with
      | some n => some ((c.toNat - '0'.toNat) * 10 ^ rest.length + n)
      | none => none
    else none

/-- `strconv.Atoi`: optional sign, then decimal digits, result must fit in
a 64-bit signed `int` (Go `int` on a 64-bit platform). -/
def goAtoi (s : String) : Option Int :=
  match s.data with
  | [] => none
  | '+' :: rest =>
    match digitsVal rest with
    | some n => if (n : Int) ≤ 2 ^ 63 - 1 then some (n : Int) else none
    | none => none
  | '-' :: rest =>
    match digitsVal rest with
    | some n => if (n : Int) ≤ 2 ^ 63 then some (-(n : Int)) else none
    | none => none
  | _ =>
    match digitsVal s.data with
    | some n => if (n : Int) ≤ 2 ^ 63 - 1 then some (n : Int) else none
    | none => none

/-- `strconv.ParseBool`: exactly the listed token strings are accepted. -/
def goParseBool (s : String) : Option Bool :=
  if s = "1" ∨ s = "t" ∨ s = "T" ∨ s = "TRUE" ∨ s = "true" ∨ s = "True" then
    some true
  else if s = "0" ∨ s = "f" ∨ s = "F" ∨ s = "FALSE" ∨ s = "false" ∨ s = "False" then
    some false
  else none

/-! ### Reflection values

A Go struct visited by the engine is a sequence of fields; each field carries
its `env` tag, its `default` tag (empty string when the tag is absent, as
`Tag.Get` returns), its settability (`reflect.Value.CanSet`: false for
unexported fields), and its current value.  Scalar kinds other than
int/string/bool are collapsed into `vOther` carrying only the outcome of the
`isEmpty` deep-equality test, which is all `setValue` ever inspects of them. -/

mutual
inductive GoVal : Type where
  | vInt : Int → GoVal
  | vStr : String → GoVal
  | vBool : Bool → GoVal
  | vOther : Bool → GoVal
  | vStruct : Fields → GoVal

inductive Fields : Type where
  | fnil : Fields
  | fcons : String → String → Bool → GoVal → Fields → Fields
end

mutual
/-- `isEmpty` (part_006 line 101): `reflect.DeepEqual(v, zero-of-type)`. -/
def isEmptyV : GoVal → Bool
  | .vInt n => n = 0
  | .vStr s => s = ""
  | .vBool b => b = false
  | .vOther z => z
  | .vStruct fs => isEmptyF fs

/-- Deep equality of a struct with the zero struct: all fields zero. -/
def isEmptyF : Fields → Bool
  | .fnil => true
  | .fcons _ _ _ v rest => isEmptyV v && isEmptyF rest
end

/-- Environments stand in for `os.Getenv`. -/
def Env : Type := String → String

/-- `environmentValue("env")` applied to a field's tag (part_006 lines 17-27):
the env tag must be declared and the variable non-empty, otherwise `""`. -/
def envStr (E : Env) (tagEnv : String) : String :=
  if tagEnv ≠ "" then (if E tagEnv ≠ "" then E tagEnv else "") else ""

/-- `defaultValue("default")` applied to a field's tag (part_006 lines 29-37). -/
def defStr (tagDef : String) : String :=
  if tagDef ≠ "" then tagDef else ""

/-- `setValue` (part_006 lines 71-99).  Returns the (possibly updated) field
value and the error, mirroring Go's in-place mutation plus error return. -/
def setValueGo (canSet : Bool) (val : String) (v : GoVal) : GoVal × Option String :=
  if val = "" then (v, none)
  else if !canSet then (v, some "can't set value")
  else if !(isEmptyV v) then (v, none)
  else
    match v with
    | .vInt _ =>
      match goAtoi val with
      | some n => (.vInt n, none)
      | none => (v, none)
    | .vStr _ => (.vStr val, none)
    | .vBool _ =>
      match goParseBool val with
      | some b => (.vBool b, none)
      | none => (v, none)
    | _ => (v, none)

/-- `setField` (part_006 lines 60-69): apply the `env` getter then the
`default` getter, aborting on the first error. -/
def setFieldGo (E : Env) (tagEnv tagDef : String) (canSet : Bool) (v : GoVal) :
    GoVal × Option String :=
  match setValueGo canSet (envStr E tagEnv) v with
  | (v1, some m) => (v1, some m)
  | (v1, none) => setValueGo canSet (defStr tagDef) v1

/-- The inner (shadowed-index) loop of `setNested` (part_006 lines 47-52):
one full pass of `setField` over every field of the struct, returning on the
first error with the fields updated so far. -/
def innerPass (E : Env) : Fields → Fields × Option String
  | .fnil => (.fnil, none)
  | .fcons te td c v rest =>
    match setFieldGo E te td c v with
    | (v', some m) => (.fcons te td c v' rest, some m)
    | (v', none) =>
      match innerPass E rest with
      | (rest', e') => (.fcons te td c v' rest', e')

/-! ### The outer loop of `setNested`

`setNested` (part_006 lines 43-58) iterates over the fields of `v`; for a
struct-kind field it recurses into it (discarding the recursive error), and
for every other field it runs one full `setField` pass over *all* fields of
`v` (the inner loop shadows the outer index), returning on the first error.

Go mutates the struct in place, so the model threads the whole current field
list `cur` while walking the original list `orig` with the running index `i`;
a pass never changes a struct-valued field (`innerPass_fieldAt_struct` below),
so when the walk reaches index `i` the current value there is still the
original one, and recursing on the original subterm is faithful. -/

/-- Replace the value of field `i`, keeping its tags and settability. -/
def updateAt : Fields → Nat → GoVal → Fields
  | .fnil, _, _ => .fnil
  | .fcons te td c _ rest, 0, w => .fcons te td c w rest
  | .fcons te td c v rest, i + 1, w => .fcons te td c v (updateAt rest i w)

/-- The field at index `i`: `(env tag, default tag, canSet, value)`. -/
def fieldAt : Fields → Nat → Option (String × String × Bool × GoVal)
  | .fnil, _ => none
  | .fcons te td c v _, 0 => some (te, td, c, v)
  | .fcons _ _ _ _ rest, i + 1 => fieldAt rest i

/-- Number of fields. -/
def lenF : Fields → Nat
  | .fnil => 0
  | .fcons _ _ _ _ rest => lenF rest + 1

/-- Drop the first `i` fields. -/
def dropF : Nat → Fields → Fields
  | 0, fs => fs
  | _ + 1, .fnil => .fnil
  | i + 1, .fcons _ _ _ _ rest => dropF i rest

mutual
/-- Struct-nesting depth of a value (scalars have depth 0). -/
def depthV : GoVal → Nat
  | .vStruct fs => depthL fs + 1
  | _ => 0

/-- Struct-nesting depth of a field list. -/
def depthL : Fields → Nat
  | .fnil => 0
  | .fcons _ _ _ v rest => max (depthV v) (depthL rest)
end

/-- `setNested` (part_006 lines 43-58); `orig` is the suffix of the original
field list still to be walked, `i` the index of its head in the whole struct,
`cur` the current state of the whole struct. -/
def setNestedGo (E : Env) : Fields → Nat → Fields → Fields × Option String
  | .fnil, _, cur => (cur, none)
  | .fcons _ _ _ (.vStruct sub) rest, i, cur =>
    -- struct-kind field: recurse, discarding the error (the source drops it)
    setNestedGo E rest (i + 1) (updateAt cur i (.vStruct (setNestedGo E sub 0 sub).1))
  | .fcons _ _ _ _ rest, i, cur =>
    match innerPass E cur with
    | (cur', some m) => (cur', some m)
    | (cur', none) => setNestedGo E rest (i + 1) cur'
termination_by orig _ _ => sizeOf orig
decreasing_by
  all_goals simp_wf
  all_goals omega

/-- `defaults.Set` (part_006 lines 39-41). -/
def SetGo (E : Env) (fs : Fields) : Fields × Option String :=
  setNestedGo E fs 0 fs

/-! ### The update-transaction coordinator (`C[T]`, part_001 lines 17-229)

`C[T]` holds the current config, the timestamp string, and two integer-keyed
Go maps: `subscribers` (fallible observers `T → error`) and `callbacks`
(fire-and-forget observers).  Maps are modelled as association lists with
unique keys; `len(map) + 1` is `lenMap + 1`; map insertion overwrites an
existing key in place, as Go's `m[k] = v` does.

Effects are modelled as an event trace: `subCall id v` records a subscriber
invocation (both during `notify` and during `rollback`), `cbDispatch id v`
records the `go f(config)` statement launching a callback goroutine,
`commitEv v` the assignment `cog.config = new`, and `saveEv v` the
`handler.Save` call.  `validator.Struct`, `handler.Save` and `time.Now` are
external collaborators, passed as parameters `V`, `S` and `now`. -/

/-- State of a `C[T]` instance.  A subscriber map entry holds `none` when the
application registered a `nil` function (the `f == nil` checks in `notify`
and `rollback` skip those); a callback entry likewise holds its nil-ness. -/
structure CogState (T : Type) where
  config : T
  timestamp : String
  subscribers : List (Nat × Option (T → Option String))
  callbacks : List (Nat × Bool)

/-- Observable events of one `Update`. -/
inductive Ev (T : Type) where
  | subCall : Nat → T → Ev T
  | cbDispatch : Nat → T → Ev T
  | commitEv : T → Ev T
  | saveEv : T → Ev T

/-- Go map lookup. -/
def mapLookup {α : Type} : List (Nat × α) → Nat → Option α
  | [], _ => none
  | (k, a) :: rest, key => if k = key then some a else mapLookup rest key

/-- Go map assignment `m[k] = v`: overwrite in place, or append a new entry. -/
def mapInsert {α : Type} : List (Nat × α) → Nat → α → List (Nat × α)
  | [], key, a => [(key, a)]
  | (k, b) :: rest, key, a =>
    if k = key then (k, a) :: rest else (k, b) :: mapInsert rest key a

/-- Go map `delete(m, k)`. -/
def mapDelete {α : Type} : List (Nat × α) → Nat → List (Nat × α)
  | [], _ => []
  | (k, b) :: rest, key => if k = key then mapDelete rest key else (k, b) :: mapDelete rest key

/-- `len(m)`: with unique keys, the number of entries. -/
def mapLen {α : Type} (m : List (Nat × α)) : Nat := m.length

/-- `validate` (part_001 lines 224-229) with the external
`validator.New().Struct` oracle `V`. -/
def validateGo {T : Type} (V : T → Option String) (data : T) : Option String :=
  match V data with
  | some e => some ("failed at validate config: " ++ e)
  | none => none

/-- `C.rollback` (part_001 lines 192-199): re-invoke every already-updated
subscriber with the old (still-current) config, ignoring their errors.
`updated` keeps the origin id of each function for the trace. -/
def rollbackGo {T : Type} (oldV : T) :
    List (Nat × Option (T → Option String)) → List (Ev T)
  | [] => []
  | (_, none) :: rest => rollbackGo oldV rest
  | (id, some _) :: rest => Ev.subCall id oldV :: rollbackGo oldV rest

/-- The subscriber loop of `C.notify` (part_001 lines 171-180), iterating the
`subscribers` map in the given order; `updated` accumulates the subscribers
that succeeded so far, in order of success. -/
def subsScan {T : Type} (oldV newV : T)
    (updated : List (Nat × Option (T → Option String))) :
    List (Nat × Option (T → Option String)) → List (Ev T) × Option String
  | [] => ([], none)
  | (_, none) :: rest => subsScan oldV newV updated rest
  | (id, some f) :: rest =>
    match f newV with
    | some e =>
      (Ev.subCall id newV :: rollbackGo oldV updated,
       some ("subscriber returned an error on update: " ++ e))
    | none =>
      match subsScan oldV newV (updated ++ [(id, some f)]) rest with
      | (tr, err) => (Ev.subCall id newV :: tr, err)

/-- The callback loop of `C.notify` (part_001 lines 182-187): for every
non-nil callback, `go f(config)` dispatches a goroutine with the new value. -/
def cbScan {T : Type} (newV : T) : List (Nat × Bool) → List (Ev T)
  | [] => []
  | (_, false) :: rest => cbScan newV rest
  | (id, true) :: rest => Ev.cbDispatch id newV :: cbScan newV rest

/-- `C.notify` (part_001 lines 168-190); `order`/`orderC` are the map
iteration orders of the two `range` loops. -/
def notifyGo {T : Type} (oldV newV : T)
    (order : List (Nat × Option (T → Option String)))
    (orderC : List (Nat × Bool)) : List (Ev T) × Option String :=
  match subsScan oldV newV [] order with
  | (tr, some e) => (tr, some e)
  | (tr, none) => (tr ++ cbScan newV orderC, none)

/-- `C.Update` (part_001 lines 65-84) with `C.save` (lines 159-166) inlined:
`save` refreshes the timestamp to `now` and then calls the external `Save`
oracle `S`.  Returns the new state, the event trace, and the error. -/
def UpdateGo {T : Type} (V S : T → Option String) (now : String)
    (s : CogState T)
    (order : List (Nat × Option (T → Option String)))
    (orderC : List (Nat × Bool)) (newV : T) :
    CogState T × List (Ev T) × Option String :=
  match validateGo V newV with
  | some e => (s, [], some e)
  | none =>
    match notifyGo s.config newV order orderC with
    | (tr, some e) => (s, tr, some e)
    | (tr, none) =>
      let s2 : CogState T :=
        { s with config := newV, timestamp := now }
      match S newV with
      | some e => (s2, tr ++ [Ev.commitEv newV, Ev.saveEv newV], some e)
      | none => (s2, tr ++ [Ev.commitEv newV, Ev.saveEv newV], none)

/-- `C.Config` (part_001 lines 146-151). -/
def ConfigGo {T : Type} (s : CogState T) : T := s.config

/-- `C.GetTimestamp` (part_001 lines 138-143). -/
def GetTimestampGo {T : Type} (s : CogState T) : String := s.timestamp

/-- `C.AddSubscriber` (part_001 lines 114-122): the id is `len(map) + 1`;
the assignment overwrites any entry already stored under that id. -/
def AddSubscriberGo {T : Type} (s : CogState T)
    (f : Option (T → Option String)) : CogState T × Nat :=
  let l := mapLen s.subscribers + 1
  ({ s with subscribers := mapInsert s.subscribers l f }, l)

/-- `C.RemoveSubscriber` (part_001 lines 125-135). -/
def RemoveSubscriberGo {T : Type} (s : CogState T) (id : Nat) :
    CogState T × Option String :=
  match mapLookup s.subscribers id with
  | some _ => ({ s with subscribers := mapDelete s.subscribers id }, none)
  | none => (s, some ("subscriber with id=" ++ toString id ++ " not found"))

/-- `C.AddCallback` (part_001 lines 88-97). -/
def AddCallbackGo {T : Type} (s : CogState T) (present : Bool) :
    CogState T × Nat :=
  let l := mapLen s.callbacks + 1
  ({ s with callbacks := mapInsert s.callbacks l present }, l)

/-- `C.RemoveCallback` (part_001 lines 100-111). -/
def RemoveCallbackGo {T : Type} (s : CogState T) (id : Nat) :
    CogState T × Option String :=
  match mapLookup s.callbacks id with
  | some _ => ({ s with callbacks := mapDelete s.callbacks id }, none)
  | none => (s, some ("callback with id=" ++ toString id ++ " not found"))

/-- `Init` (part_001 lines 35-62).  `L` is the external `handler.Load`
result: `C.load` (lines 153-157) stores the loaded value on success and
falls back to the zero value `zeroT` (`*new(T)`) on error, swallowing the
error.  `defaultsF` is `defaults.Set` on the config (instantiated with the
real engine for `T = Fields` below), `V` the validator, `S` the saver. -/
def InitGo {T : Type} (L : Except String T) (zeroT : T)
    (defaultsF : T → T × Option String)
    (V S : T → Option String) (now : String) :
    Except String (CogState T) :=
  let cfg0 := match L with
    | .ok t => t
    | .error _ => zeroT
  match defaultsF cfg0 with
  | (_, some e) => .error ("failed to set env/default values: " ++ e)
  | (cfg1, none) =>
    match validateGo V cfg1 with
    | some e => .error e
    | none =>
      match S cfg1 with
      | some e => .error e
      | none => .ok ⟨cfg1, now, [], []⟩

/-- `Init` at the config type actually resolved by the engine: `T = Fields`,
with `defaults.Set` wired to the real resolution engine. -/
def InitFields (E : Env) (L : Except String Fields)
    (V S : Fields → Option String) (now : String) :
    Except String (CogState Fields) :=
  InitGo L .fnil (fun fs => SetGo E fs) V S now

/-! ### Derived notions about traces and registries -/

/-- Every subscriber entry in the list is either nil or accepts `newV`. -/
def scanOk {T : Type} (newV : T)
    (l : List (Nat × Option (T → Option String))) : Prop :=
  ∀ p ∈ l, ∀ f, p.2 = some f → f newV = none

/-- The `subCall` events produced by invoking each non-nil entry of `l`
with `v`, in list order. -/
def succCalls {T : Type} (v : T)
    (l : List (Nat × Option (T → Option String))) : List (Ev T) :=
  l.filterMap (fun p => p.2.map (fun _ => Ev.subCall p.1 v))

/-- Event classifiers. -/
def isCb {T : Type} : Ev T → Bool
  | .cbDispatch _ _ => true
  | _ => false

def isCommit {T : Type} : Ev T → Bool
  | .commitEv _ => true
  | _ => false

def isSave {T : Type} : Ev T → Bool
  | .saveEv _ => true
  | _ => false

def isSubCallOf {T : Type} (id : Nat) : Ev T → Bool
  | .subCall k _ => k = id
  | _ => false

/-- Every callback dispatch in the trace happens after a commit event and
after a save event. -/
def cbOnlyAfterCommitAndSave {T : Type} (tr : List (Ev T)) : Prop :=
  ∀ i, ∀ h : i < tr.length, isCb (tr.get ⟨i, h⟩) = true →
    (∃ j, ∃ hj : j < tr.length, j < i ∧ isCommit (tr.get ⟨j, hj⟩) = true) ∧
    (∃ k, ∃ hk : k < tr.length, k < i ∧ isSave (tr.get ⟨k, hk⟩) = true)

/-- Register a list of subscribers one after the other, collecting the
returned identifiers. -/
def addAll {T : Type} (s : CogState T) :
    List (Option (T → Option String)) → CogState T × List Nat
  | [] => (s, [])
  | f :: rest =>
    match AddSubscriberGo s f with
    | (s1, id) =>
      match addAll s1 rest with
      | (s2, ids) => (s2, id :: ids)

/-! ### Helper lemmas about the subscriber scan -/

/-- If every entry accepts the new value, the scan invokes each non-nil one
once with the new value and reports no error. -/
theorem subsScan_ok {T : Type} (oldV newV : T)
    (order : List (Nat × Option (T → Option String))) (hOk : scanOk newV order) :
    ∀ updated, subsScan oldV newV updated order = (succCalls newV order, none) := by
  induction order with
  | nil => intro updated; rfl
  | cons p rest ih =>
    intro updated
    obtain ⟨id, f?⟩ := p
    have hrest : scanOk newV rest := fun q hq => hOk q (List.mem_cons_of_mem _ hq)
    match f? with
    | none =>
      simp only [subsScan, succCalls, List.filterMap_cons]
      simpa [succCalls] using ih hrest updated
    | some f =>
      have hf : f newV = none := hOk (id, some f) (List.mem_cons_self _ _) f rfl
      simp only [subsScan, hf, ih hrest, succCalls, List.filterMap_cons, Option.map_some']

/-- A full map iteration in which every entry before the failing one accepts
the new value: the scan invokes the successful prefix with the new value,
then the failing subscriber, then rolls the prefix back with the old value,
in order of first success, and reports the wrapped error. -/
theorem subsScan_fail {T : Type} (oldV newV : T)
    (pre : List (Nat × Option (T → Option String))) (idB : Nat)
    (fB : T → Option String) (eB : String)
    (post : List (Nat × Option (T → Option String)))
    (hPre : scanOk newV pre) (hB : fB newV = some eB) :
    ∀ updated, subsScan oldV newV updated (pre ++ (idB, some fB) :: post) =
      (succCalls newV pre ++ Ev.subCall idB newV ::
        rollbackGo oldV (updated ++ pre.filter (fun p => p.2.isSome)),
       some ("subscriber returned an error on update: " ++ eB)) := by
  induction pre with
  | nil =>
    intro updated
    simp [subsScan, hB, succCalls]
  | cons p rest ih =>
    intro updated
    obtain ⟨id, f?⟩ := p
    have hrest : scanOk newV rest := fun q hq => hPre q (List.mem_cons_of_mem _ hq)
    match f? with
    | none =>
      simpa [subsScan, succCalls, List.filter_cons] using ih hrest updated
    | some f =>
      have hf : f newV = none := hPre (id, some f) (List.mem_cons_self _ _) f rfl
      simp [subsScan, hf, ih hrest, succCalls, List.filter_cons, List.append_assoc]

/-- Rollback calls ignore nil entries and follow the order of the list. -/
theorem rollbackGo_append {T : Type} (oldV : T)
    (l1 l2 : List (Nat × Option (T → Option String))) :
    rollbackGo oldV (l1 ++ l2) = rollbackGo oldV l1 ++ rollbackGo oldV l2 := by
  induction l1 with
  | nil => rfl
  | cons p rest ih =>
    obtain ⟨id, f?⟩ := p
    cases f? <;> simp [rollbackGo, ih]

/-- Rolling back the non-nil entries of `l` emits one `subCall` with the old
value per non-nil entry, in list order. -/
theorem rollbackGo_filter {T : Type} (oldV : T)
    (l : List (Nat × Option (T → Option String))) :
    rollbackGo oldV (l.filter (fun p => p.2.isSome)) = succCalls oldV l := by
  induction l with
  | nil => rfl
  | cons p rest ih =>
    obtain ⟨id, f?⟩ := p
    cases f? <;> simp [rollbackGo, succCalls, List.filter_cons, ih]

/-- All events produced by `succCalls` are subscriber calls. -/
theorem succCalls_sub_only {T : Type} (v : T)
    (l : List (Nat × Option (T → Option String))) :
    ∀ ev ∈ succCalls v l, isCb ev = false ∧ isCommit ev = false ∧ isSave ev = false := by
  induction l with
  | nil => intro ev h; simp [succCalls] at h
  | cons p rest ih =>
    intro ev h
    obtain ⟨id, f?⟩ := p
    cases f? with
    | none => exact ih ev (by simpa [succCalls] using h)
    | some f =>
      simp only [succCalls, List.filterMap_cons, Option.map_some', List.mem_cons] at h
      rcases h with h | h
      · subst h; exact ⟨rfl, rfl, rfl⟩
      · exact ih ev (by simpa [succCalls] using h)

/-! ### Claim C1 -/

/-- C1: if the candidate value fails validation, `Update` returns the wrapped
validation error, produces no events (no observer of any kind is invoked),
and leaves the store untouched: `Config()` and `GetTimestamp()` afterwards
equal the pre-update snapshot and timestamp. -/
theorem c1_invalid_update_rejected {T : Type} (V S : T → Option String)
    (now : String) (s : CogState T)
    (order : List (Nat × Option (T → Option String)))
    (orderC : List (Nat × Bool)) (newV : T) (e : String)
    (hV : V newV = some e) :
    UpdateGo V S now s order orderC newV =
      (s, [], some ("failed at validate config: " ++ e)) ∧
    ConfigGo (UpdateGo V S now s order orderC newV).1 = ConfigGo s ∧
    GetTimestampGo (UpdateGo V S now s order orderC newV).1 = GetTimestampGo s := by
  simp [UpdateGo, validateGo, hV, ConfigGo, GetTimestampGo]

/-- Witness for C1 at a concrete input. -/
theorem c1_invalid_update_rejected_witness :
    UpdateGo (T := Int) (fun n => if n = 5 then some "bad" else none)
        (fun _ => none) "t1" ⟨0, "t0", [], []⟩ [] [] 5 =
      (⟨0, "t0", [], []⟩, [], some ("failed at validate config: " ++ "bad")) ∧
    ConfigGo (UpdateGo (T := Int) (fun n => if n = 5 then some "bad" else none)
        (fun _ => none) "t1" ⟨0, "t0", [], []⟩ [] [] 5).1 =
      ConfigGo (⟨0, "t0", [], []⟩ : CogState Int) ∧
    GetTimestampGo (UpdateGo (T := Int) (fun n => if n = 5 then some "bad" else none)
        (fun _ => none) "t1" ⟨0, "t0", [], []⟩ [] [] 5).1 =
      GetTimestampGo (⟨0, "t0", [], []⟩ : CogState Int) :=
  c1_invalid_update_rejected _ _ _ _ _ _ _ "bad" (by norm_num)

/-! ### Claim C2 -/

/-- C2: if, under the given map-iteration order, every subscriber before the
failing one accepts the new value and one subscriber then rejects it, the
store is left unchanged, `Update` returns an error wrapping the failing
subscriber's error, every already-succeeded subscriber is invoked again with
the old (still-current) snapshot in the order of first success (their errors
ignored), and no fire-and-forget observer is dispatched, nothing is
committed and nothing is saved. -/
theorem c2_subscriber_failure_rollback {T : Type} (V S : T → Option String)
    (now : String) (s : CogState T)
    (pre post : List (Nat × Option (T → Option String)))
    (idB : Nat) (fB : T → Option String) (eB : String)
    (orderC : List (Nat × Bool)) (newV : T)
    (hV : V newV = none) (hPre : scanOk newV pre) (hB : fB newV = some eB) :
    UpdateGo V S now s (pre ++ (idB, some fB) :: post) orderC newV =
      (s,
       succCalls newV pre ++ Ev.subCall idB newV :: succCalls s.config pre,
       some ("subscriber returned an error on update: " ++ eB)) ∧
    ∀ ev ∈ (UpdateGo V S now s (pre ++ (idB, some fB) :: post) orderC newV).2.1,
      isCb ev = false ∧ isCommit ev = false ∧ isSave ev = false := by
  have hscan := subsScan_fail s.config newV pre idB fB eB post hPre hB []
  simp only [List.nil_append] at hscan
  have hmain :
      UpdateGo V S now s (pre ++ (idB, some fB) :: post) orderC newV =
        (s,
         succCalls newV pre ++ Ev.subCall idB newV :: succCalls s.config pre,
         some ("subscriber returned an error on update: " ++ eB)) := by
    simp [UpdateGo, validateGo, hV, notifyGo, hscan, rollbackGo_filter]
  refine ⟨hmain, ?_⟩
  intro ev hev
  rw [hmain] at hev
  simp only [List.mem_append, List.mem_cons] at hev
  rcases hev with h | h | h
  · exact succCalls_sub_only newV pre ev h
  · subst h; exact ⟨rfl, rfl, rfl⟩
  · exact succCalls_sub_only s.config pre ev h

/-- Witness for C2: subscribers `[1 ↦ ok, 2 ↦ fail]` scanned in that order. -/
theorem c2_subscriber_failure_rollback_witness :
    UpdateGo (T := Int) (fun _ => none) (fun _ => none) "t1"
        ⟨0, "t0", [(1, some fun _ => none), (2, some fun _ => some "boom")], []⟩
        ([(1, some fun _ => none)] ++ (2, some fun _ => some "boom") :: []) [] 7 =
      (⟨0, "t0", [(1, some fun _ => none), (2, some fun _ => some "boom")], []⟩,
       succCalls 7 [(1, some fun _ => none)] ++ Ev.subCall 2 7 ::
         succCalls (0 : Int) [(1, some fun _ => none)],
       some ("subscriber returned an error on update: " ++ "boom")) ∧
    ∀ ev ∈ (UpdateGo (T := Int) (fun _ => none) (fun _ => none) "t1"
        ⟨0, "t0", [(1, some fun _ => none), (2, some fun _ => some "boom")], []⟩
        ([(1, some fun _ => none)] ++ (2, some fun _ => some "boom") :: []) [] 7).2.1,
      isCb ev = false ∧ isCommit ev = false ∧ isSave ev = false :=
  c2_subscriber_failure_rollback _ _ _ _ _ _ _ _ "boom" _ _ rfl
    (by intro p hp f hf; simp at hp; simp [hp] at hf; simp [← hf]) rfl

/-! ### Claim C3 -/

/-- C3 counterexample: in a successful update with one registered callback,
the callback goroutine is dispatched *before* the commit and the save: the
trace is `[cbDispatch, commit, save]`, refuting the claim that dispatch
happens only after commit and persistence. -/
theorem c3_dispatch_before_commit_cex :
    (UpdateGo (T := Int) (fun _ => none) (fun _ => none) "t1"
        ⟨0, "t0", [], [(1, true)]⟩ [] [(1, true)] 7 =
      (⟨7, "t1", [], [(1, true)]⟩,
       [Ev.cbDispatch 1 7, Ev.commitEv 7, Ev.saveEv 7], none)) ∧
    ¬ cbOnlyAfterCommitAndSave
        (UpdateGo (T := Int) (fun _ => none) (fun _ => none) "t1"
          ⟨0, "t0", [], [(1, true)]⟩ [] [(1, true)] 7).2.1 := by
  have hrun : UpdateGo (T := Int) (fun _ => none) (fun _ => none) "t1"
      ⟨0, "t0", [], [(1, true)]⟩ [] [(1, true)] 7 =
      (⟨7, "t1", [], [(1, true)]⟩,
       [Ev.cbDispatch 1 7, Ev.commitEv 7, Ev.saveEv 7], none) := rfl
  refine ⟨hrun, ?_⟩
  rw [hrun]
  intro hclaim
  obtain ⟨⟨j, hj, hji, _⟩, _⟩ := hclaim 0 (by norm_num) rfl
  omega

/-- C3 amended: in every successful `Update` the order of observable actions
is: validation, then each fallible observer with the new value, then the
dispatch of every fire-and-forget observer with the new value, then the
commit, then the save — i.e. callbacks are dispatched *after* the fallible
observers succeed but *before* the new snapshot is committed and persisted. -/
theorem c3_successful_update_order {T : Type} (V S : T → Option String)
    (now : String) (s : CogState T)
    (order : List (Nat × Option (T → Option String)))
    (orderC : List (Nat × Bool)) (newV : T)
    (hV : V newV = none) (hOk : scanOk newV order) (hS : S newV = none) :
    UpdateGo V S now s order orderC newV =
      ({ s with config := newV, timestamp := now },
       succCalls newV order ++ cbScan newV orderC ++
         [Ev.commitEv newV, Ev.saveEv newV],
       none) := by
  simp [UpdateGo, validateGo, hV, hS, notifyGo, subsScan_ok _ newV order hOk]

/-- Witness for the amended C3. -/
theorem c3_successful_update_order_witness :
    UpdateGo (T := Int) (fun _ => none) (fun _ => none) "t1"
        ⟨0, "t0", [(1, some fun _ => none)], [(1, true)]⟩
        [(1, some fun _ => none)] [(1, true)] 7 =
      ({ config := 7, timestamp := "t1",
         subscribers := [(1, some fun _ => none)], callbacks := [(1, true)] },
       succCalls 7 [(1, some fun _ => none)] ++ cbScan 7 [(1, true)] ++
         [Ev.commitEv 7, Ev.saveEv 7],
       none) :=
  c3_successful_update_order _ _ _ _ _ _ _ rfl
    (by intro p hp f hf; simp at hp; simp [hp] at hf; simp [← hf]) rfl

/-! ### Claim C6 -/

/-- C6: if validation and every fallible observer succeed but the save
fails, `Update` returns the persistence error unchanged while the in-memory
commit stays: `Config()` afterwards equals the new value (and the timestamp
was refreshed). -/
theorem c6_persist_failure_keeps_commit {T : Type} (V S : T → Option String)
    (now : String) (s : CogState T)
    (order : List (Nat × Option (T → Option String)))
    (orderC : List (Nat × Bool)) (newV : T) (e : String)
    (hV : V newV = none) (hOk : scanOk newV order) (hS : S newV = some e) :
    UpdateGo V S now s order orderC newV =
      ({ s with config := newV, timestamp := now },
       succCalls newV order ++ cbScan newV orderC ++
         [Ev.commitEv newV, Ev.saveEv newV],
       some e) ∧
    ConfigGo (UpdateGo V S now s order orderC newV).1 = newV := by
  have hmain : UpdateGo V S now s order orderC newV =
      ({ s with config := newV, timestamp := now },
       succCalls newV order ++ cbScan newV orderC ++
         [Ev.commitEv newV, Ev.saveEv newV],
       some e) := by
    simp [UpdateGo, validateGo, hV, hS, notifyGo, subsScan_ok _ newV order hOk]
  exact ⟨hmain, by rw [hmain]; rfl⟩

/-- Witness for C6. -/
theorem c6_persist_failure_keeps_commit_witness :
    UpdateGo (T := Int) (fun _ => none) (fun _ => some "disk full") "t1"
        ⟨0, "t0", [], []⟩ [] [] 7 =
      ({ config := 7, timestamp := "t1", subscribers := [], callbacks := [] },
       succCalls 7 ([] : List (Nat × Option (Int → Option String))) ++
         cbScan 7 [] ++ [Ev.commitEv 7, Ev.saveEv 7],
       some "disk full") ∧
    ConfigGo (UpdateGo (T := Int) (fun _ => none) (fun _ => some "disk full") "t1"
        ⟨0, "t0", [], []⟩ [] [] 7).1 = 7 :=
  c6_persist_failure_keeps_commit _ _ _ _ _ _ _ "disk full" rfl
    (by intro p hp; simp at hp) rfl

/-! ### Claim C4 -/

/-- Inserting a key absent from the map appends the entry at the end. -/
theorem mapInsert_fresh {α : Type} (m : List (Nat × α)) (key : Nat) (a : α)
    (h : ∀ p ∈ m, p.1 ≠ key) : mapInsert m key a = m ++ [(key, a)] := by
  induction m with
  | nil => rfl
  | cons p rest ih =>
    obtain ⟨k, b⟩ := p
    have hk : k ≠ key := h (k, b) (List.mem_cons_self _ _)
    simp only [mapInsert, if_neg hk, List.cons_append, List.cons.injEq, true_and]
    exact ih (fun q hq => h q (List.mem_cons_of_mem _ hq))

/-- Registering `n` subscribers in a row, starting from a registry whose keys
are exactly `1..k`, returns the identifiers `k+1, …, k+n` and leaves the keys
`1..(k+n)`. -/
theorem addAll_ids {T : Type} (fs : List (Option (T → Option String))) :
    ∀ (s : CogState T) (k : Nat),
      s.subscribers.map Prod.fst = List.range' 1 k →
      (addAll s fs).2 = List.range' (k + 1) fs.length ∧
      (addAll s fs).1.subscribers.map Prod.fst = List.range' 1 (k + fs.length) := by
  induction fs with
  | nil => intro s k hk; simpa [addAll] using hk
  | cons f rest ih =>
    intro s k hk
    have hlen : s.subscribers.length = k := by
      have := congrArg List.length hk
      simpa using this
    have hfresh : ∀ p ∈ s.subscribers, p.1 ≠ k + 1 := by
      intro p hp
      have : p.1 ∈ List.range' 1 k := hk ▸ List.mem_map_of_mem Prod.fst hp
      have := List.mem_range'_1.mp this
      omega
    have hins : mapInsert s.subscribers (k + 1) f = s.subscribers ++ [(k + 1, f)] :=
      mapInsert_fresh _ _ _ hfresh
    have hkeys :
        (mapInsert s.subscribers (k + 1) f).map Prod.fst = List.range' 1 (k + 1) := by
      rw [hins, List.map_append, hk]
      simp [List.range'_concat, Nat.add_comm]
    have hstep :
        AddSubscriberGo s f =
          ({ s with subscribers := mapInsert s.subscribers (k + 1) f }, k + 1) := by
      simp [AddSubscriberGo, mapLen, hlen]
    obtain ⟨hid, hkey⟩ :=
      ih ({ s with subscribers := mapInsert s.subscribers (k + 1) f }) (k + 1) hkeys
    constructor
    · simp only [addAll, hstep, hid, List.length_cons]
      rw [List.range'_succ]
    · simpa [addAll, hstep, Nat.add_assoc, Nat.add_comm, Nat.add_left_comm] using hkey

/-- C4 counterexample: after `AddSubscriber, AddSubscriber, RemoveSubscriber 1`,
the next `AddSubscriber` returns identifier 2 again — an identifier that was
already returned earlier and whose entry is still registered — and the new
entry overwrites it, leaving a single registered subscriber.  This refutes
"monotonically increasing" and "never reused after a removal". -/
theorem c4_id_reuse_cex :
    (addAll (T := Int) ⟨0, "t", [], []⟩
        [some fun _ => none, some fun _ => none]).2 = [1, 2] ∧
    (RemoveSubscriberGo
        (addAll (T := Int) ⟨0, "t", [], []⟩
          [some fun _ => none, some fun _ => none]).1 1).2 = none ∧
    (AddSubscriberGo
        (RemoveSubscriberGo
          (addAll (T := Int) ⟨0, "t", [], []⟩
            [some fun _ => none, some fun _ => none]).1 1).1
        (some fun _ => none)).2 = 2 ∧
    mapLen (AddSubscriberGo
        (RemoveSubscriberGo
          (addAll (T := Int) ⟨0, "t", [], []⟩
            [some fun _ => none, some fun _ => none]).1 1).1
        (some fun _ => none)).1.subscribers = 1 :=
  ⟨rfl, rfl, rfl, rfl⟩

/-- C4 amended: in a removal-free sequence starting from an empty registry,
the returned identifiers are `1, 2, …, n` — strictly increasing, starting at
1 and unique — and the currently-registered identifiers are exactly those,
hence unique; after a removal an identifier may be reused (see the
counterexample). -/
theorem c4_ids_without_removal {T : Type} (s : CogState T)
    (fs : List (Option (T → Option String))) (h : s.subscribers = []) :
    (addAll s fs).2 = List.range' 1 fs.length ∧
    (addAll s fs).1.subscribers.map Prod.fst = List.range' 1 fs.length ∧
    List.Chain' (· < ·) (addAll s fs).2 ∧
    ((addAll s fs).1.subscribers.map Prod.fst).Nodup := by
  obtain ⟨hid, hkey⟩ := addAll_ids fs s 0 (by simp [h])
  simp only [Nat.zero_add] at hid hkey
  refine ⟨hid, hkey, ?_, ?_⟩
  · rw [hid]
    exact (List.pairwise_lt_range' 1 fs.length).chain'
  · rw [hkey]
    exact List.nodup_range' 1 fs.length

/-- Witness for the amended C4. -/
theorem c4_ids_without_removal_witness :
    (addAll (T := Int) ⟨0, "t", [], []⟩
        [some fun _ => none, none, some fun _ => none]).2 = List.range' 1 3 ∧
    (addAll (T := Int) ⟨0, "t", [], []⟩
        [some fun _ => none, none, some fun _ => none]).1.subscribers.map Prod.fst =
      List.range' 1 3 ∧
    List.Chain' (· < ·)
      (addAll (T := Int) ⟨0, "t", [], []⟩
        [some fun _ => none, none, some fun _ => none]).2 ∧
    ((addAll (T := Int) ⟨0, "t", [], []⟩
        [some fun _ => none, none, some fun _ => none]).1.subscribers.map Prod.fst).Nodup :=
  c4_ids_without_removal _ _ rfl

/-! ### Claim C5 -/

/-- A subscriber that always accepts. -/
def subA : Int → Option String := fun _ => none

/-- A subscriber that always rejects with "boom". -/
def subB : Int → Option String := fun _ => some "boom"

/-- C5 counterexample: the subscriber map is iterated in Go's unspecified map
order, not in registration order.  With subscribers `[1 ↦ A (succeeds),
2 ↦ B (fails)]` registered in that order, the iteration order `[B, A]` is a
valid permutation of the map under which a failing `Update` invokes `A` zero
times — not twice as the claim states. -/
theorem c5_not_registration_order_cex :
    List.Perm [(2, some subB), (1, some subA)] [(1, some subA), (2, some subB)] ∧
    (UpdateGo (T := Int) (fun _ => none) (fun _ => none) "t1"
        ⟨0, "t0", [(1, some subA), (2, some subB)], []⟩
        [(2, some subB), (1, some subA)] [] 7).2.1 = [Ev.subCall 2 7] ∧
    ((UpdateGo (T := Int) (fun _ => none) (fun _ => none) "t1"
        ⟨0, "t0", [(1, some subA), (2, some subB)], []⟩
        [(2, some subB), (1, some subA)] [] 7).2.1.countP (isSubCallOf 1)) = 0 ∧
    (0 : Nat) ≠ 2 := by
  refine ⟨List.Perm.swap _ _ _, ?_, ?_, by omega⟩
  · rfl
  · rfl

/-- C5 amended: subscribers are invoked in the (unspecified) map-iteration
order; when that order coincides with the registration order `[A, B]`, with
`A` succeeding and `B` failing, the failing `Update` invokes `A` exactly
twice — once with the new, rejected value and once with the old value on
rollback — invokes `B` once, and dispatches no fire-and-forget observer. -/
theorem c5_registration_order_invocations {T : Type} (V S : T → Option String)
    (now : String) (cfg : T) (ts : String)
    (subs : List (Nat × Option (T → Option String))) (cbs : List (Nat × Bool))
    (A B : T → Option String) (eB : String)
    (orderC : List (Nat × Bool)) (newV : T)
    (hV : V newV = none) (hA : A newV = none) (hB : B newV = some eB) :
    UpdateGo V S now ⟨cfg, ts, subs, cbs⟩ [(1, some A), (2, some B)] orderC newV =
      (⟨cfg, ts, subs, cbs⟩,
       [Ev.subCall 1 newV, Ev.subCall 2 newV, Ev.subCall 1 cfg],
       some ("subscriber returned an error on update: " ++ eB)) ∧
    ((UpdateGo V S now ⟨cfg, ts, subs, cbs⟩
        [(1, some A), (2, some B)] orderC newV).2.1.countP (isSubCallOf 1)) = 2 ∧
    ((UpdateGo V S now ⟨cfg, ts, subs, cbs⟩
        [(1, some A), (2, some B)] orderC newV).2.1.countP isCb) = 0 := by
  have hmain :
      UpdateGo V S now ⟨cfg, ts, subs, cbs⟩ [(1, some A), (2, some B)] orderC newV =
        (⟨cfg, ts, subs, cbs⟩,
         [Ev.subCall 1 newV, Ev.subCall 2 newV, Ev.subCall 1 cfg],
         some ("subscriber returned an error on update: " ++ eB)) := by
    simp [UpdateGo, validateGo, hV, notifyGo, subsScan, hA, hB, rollbackGo]
  refine ⟨hmain, ?_, ?_⟩ <;>
    simp [hmain, List.countP_cons, isSubCallOf, isCb]

/-- Witness for the amended C5. -/
theorem c5_registration_order_invocations_witness :
    UpdateGo (T := Int) (fun _ => none) (fun _ => none) "t1"
        ⟨0, "t0", [(1, some subA), (2, some subB)], []⟩
        [(1, some subA), (2, some subB)] [] 7 =
      (⟨0, "t0", [(1, some subA), (2, some subB)], []⟩,
       [Ev.subCall 1 7, Ev.subCall 2 7, Ev.subCall 1 0],
       some ("subscriber returned an error on update: " ++ "boom")) ∧
    ((UpdateGo (T := Int) (fun _ => none) (fun _ => none) "t1"
        ⟨0, "t0", [(1, some subA), (2, some subB)], []⟩
        [(1, some subA), (2, some subB)] [] 7).2.1.countP (isSubCallOf 1)) = 2 ∧
    ((UpdateGo (T := Int) (fun _ => none) (fun _ => none) "t1"
        ⟨0, "t0", [(1, some subA), (2, some subB)], []⟩
        [(1, some subA), (2, some subB)] [] 7).2.1.countP isCb) = 0 :=
  c5_registration_order_invocations _ _ _ _ _ _ _ subA subB "boom" _ _
    rfl rfl rfl

/-! ### Claim C10 -/

/-- C10 counterexample: with a `ConfigHandler` whose `Load` fails,
`Init` nevertheless succeeds and produces an instance: `C.load` swallows the
load error and falls back to the zero value of the config type. -/
theorem c10_init_ok_on_load_error_cex :
    InitFields (fun _ => "") (.error "failed to read file") (fun _ => none)
        (fun _ => none) "t0" = .ok ⟨.fnil, "t0", [], []⟩ := by
  simp [InitFields, InitGo, SetGo, setNestedGo, validateGo]

/-- C10 amended: a load error is never surfaced from `Init`: `C.load`
swallows it and resets the config to the zero value, so initialization
proceeds exactly as if the handler had loaded the zero value (it can still
fail later, at resolution, validation or persistence). -/
theorem c10_load_error_zero_fallback {T : Type} (L : Except String T)
    (zeroT : T) (defaultsF : T → T × Option String) (V S : T → Option String)
    (now : String) (e : String) (hL : L = .error e) :
    InitGo L zeroT defaultsF V S now = InitGo (.ok zeroT) zeroT defaultsF V S now := by
  subst hL; rfl

/-- Witness for the amended C10. -/
theorem c10_load_error_zero_fallback_witness :
    InitGo (T := Int) (.error "no file") 0 (fun t => (t, none))
        (fun _ => none) (fun _ => none) "t0" =
      InitGo (.ok 0) 0 (fun t => (t, none)) (fun _ => none) (fun _ => none) "t0" :=
  c10_load_error_zero_fallback _ _ _ _ _ _ "no file" rfl

/-! ### Field-level facts about the resolution engine -/

/-- Structural induction for `Fields` alone (the mutual recursor needs a
trivial motive on `GoVal`). -/
theorem fieldsInd {motive : Fields → Prop} (hnil : motive .fnil)
    (hcons : ∀ te td c v rest, motive rest → motive (.fcons te td c v rest)) :
    ∀ fs, motive fs :=
  fun fs =>
    @Fields.rec (fun _ => True) motive
      (fun _ => trivial) (fun _ => trivial) (fun _ => trivial) (fun _ => trivial)
      (fun _ _ => trivial)
      hnil (fun te td c v rest _ ih => hcons te td c v rest ih) fs

/-- Is the value of struct kind? -/
def isStructV : GoVal → Bool
  | .vStruct _ => true
  | _ => false

/-- The error `setField` produces on a field, which depends only on the
field's metadata and settability, never on its value. -/
def metaErr (E : Env) (tagEnv tagDef : String) (canSet : Bool) : Option String :=
  if (envStr E tagEnv ≠ "" ∨ defStr tagDef ≠ "") ∧ canSet = false then
    some "can't set value"
  else none

theorem setValueGo_empty_val (c : Bool) (v : GoVal) : setValueGo c "" v = (v, none) := by
  simp [setValueGo]

theorem setValueGo_noset (val : String) (v : GoVal) (h : ¬ val = "") :
    setValueGo false val v = (v, some "can't set value") := by
  simp [setValueGo, h]

theorem setValueGo_keep (c : Bool) (val : String) (v : GoVal)
    (h : isEmptyV v = false) : (setValueGo c val v).1 = v := by
  unfold setValueGo
  by_cases h1 : val = ""
  · simp [h1]
  · by_cases h2 : c <;> simp [h1, h2, h]

theorem setValueGo_snd (c : Bool) (val : String) (v : GoVal) :
    (setValueGo c val v).2 =
      if ¬ val = "" ∧ c = false then some "can't set value" else none := by
  unfold setValueGo
  by_cases h1 : val = ""
  · simp [h1]
  · by_cases h2 : c
    · by_cases h3 : isEmptyV v
      · cases v <;> simp [h1, h2, h3]
        · cases goAtoi val <;> simp
        · cases goParseBool val <;> simp
      · simp [h1, h2, h3]
    · simp [h1, h2]

theorem setValueGo_err_val (c : Bool) (val : String) (v : GoVal) (m : String)
    (h : (setValueGo c val v).2 = some m) : (setValueGo c val v).1 = v := by
  rw [setValueGo_snd] at h
  by_cases h1 : ¬ val = "" ∧ c = false
  · obtain ⟨hv, hc⟩ := h1
    subst hc
    rw [setValueGo_noset val v hv]
  · simp [h1] at h

/-- A `setValue` call either leaves the field unchanged or fills a
zero-valued field with a non-zero value. -/
theorem setValueGo_val_cases (c : Bool) (val : String) (v : GoVal) :
    (setValueGo c val v).1 = v ∨
      (isEmptyV v = true ∧ isEmptyV (setValueGo c val v).1 = false) := by
  unfold setValueGo
  by_cases h1 : val = ""
  · left; simp [h1]
  · by_cases h2 : c
    · by_cases h3 : isEmptyV v
      · cases v with
        | vInt n =>
          rcases hA : goAtoi val with _ | k
          · left; simp [h1, h2, h3, hA]
          · simp only [isEmptyV, decide_eq_true_eq] at h3
            subst h3
            by_cases hk : k = 0
            · left; simp [h1, h2, hA, hk, isEmptyV]
            · right; simp [h1, h2, hA, hk, isEmptyV]
        | vStr s =>
          right
          simp only [isEmptyV, decide_eq_true_eq] at h3
          simp [h1, h2, h3, isEmptyV]
        | vBool b =>
          rcases hB : goParseBool val with _ | tb
          · left; simp [h1, h2, h3, hB]
          · simp only [isEmptyV, decide_eq_true_eq] at h3
            subst h3
            cases tb with
            | false => left; simp [h1, h2, hB, isEmptyV]
            | true => right; simp [h1, h2, hB, isEmptyV]
        | vOther z => left; simp [h1, h2, h3]
        | vStruct sub => left; simp [h1, h2, h3]
      · left; simp [h1, h2, h3]
    · left; simp [h1, h2]

theorem setValueGo_struct_val (c : Bool) (val : String) (fsub : Fields) :
    (setValueGo c val (.vStruct fsub)).1 = .vStruct fsub := by
  unfold setValueGo
  by_cases h1 : val = ""
  · simp [h1]
  · by_cases h2 : c <;> by_cases h3 : isEmptyV (GoVal.vStruct fsub) <;>
      simp [h1, h2, h3]

theorem setValueGo_isStruct (c : Bool) (val : String) (v : GoVal) :
    isStructV (setValueGo c val v).1 = isStructV v := by
  unfold setValueGo
  by_cases h1 : val = ""
  · simp [h1]
  · by_cases h2 : c
    · by_cases h3 : isEmptyV v
      · cases v <;> simp [h1, h2, h3, isStructV]
        · cases goAtoi val <;> simp [isStructV]
        · cases goParseBool val <;> simp [isStructV]
      · simp [h1, h2, h3]
    · simp [h1, h2]

/-- The error of a `setField` call depends only on the field's metadata. -/
theorem setFieldGo_snd (E : Env) (te td : String) (c : Bool) (v : GoVal) :
    (setFieldGo E te td c v).2 = metaErr E te td c := by
  unfold setFieldGo metaErr
  cases c with
  | false =>
    by_cases ha : envStr E te = ""
    · by_cases hd : defStr td = "" <;>
        simp [ha, hd, setValueGo_empty_val, setValueGo_noset]
    · simp [ha, setValueGo_noset _ _ ha]
  | true =>
    rcases h1 : setValueGo true (envStr E te) v with ⟨v1, e1⟩
    have he1 : e1 = none := by
      have h2 := setValueGo_snd true (envStr E te) v
      rw [h1] at h2
      simpa using h2
    subst he1
    simp [setValueGo_snd]

theorem setFieldGo_keep (E : Env) (te td : String) (c : Bool) (v : GoVal)
    (h : isEmptyV v = false) : (setFieldGo E te td c v).1 = v := by
  unfold setFieldGo
  rcases h1 : setValueGo c (envStr E te) v with ⟨v1, e1⟩
  have hv1 : v1 = v := by
    have h2 := setValueGo_keep c (envStr E te) v h
    rw [h1] at h2
    exact h2
  cases e1 with
  | some m => simpa using hv1
  | none =>
    have h3 := setValueGo_keep c (defStr td) v1 (by rw [hv1]; exact h)
    simpa [hv1] using h3

theorem setFieldGo_err_val (E : Env) (te td : String) (c : Bool) (v : GoVal)
    (m : String) (h : (setFieldGo E te td c v).2 = some m) :
    (setFieldGo E te td c v).1 = v := by
  rw [setFieldGo_snd] at h
  unfold metaErr at h
  by_cases hcond : (¬ envStr E te = "" ∨ ¬ defStr td = "") ∧ c = false
  · obtain ⟨_, hc⟩ := hcond
    subst hc
    unfold setFieldGo
    by_cases ha : envStr E te = ""
    · by_cases hd : defStr td = "" <;>
        simp [ha, hd, setValueGo_empty_val, setValueGo_noset]
    · simp [ha, setValueGo_noset _ _ ha]
  · simp [hcond] at h

/-- With no metadata error, `setField` computes the env pass followed by the
default pass on the value. -/
theorem setFieldGo_fst_of_ok (E : Env) (te td : String) (c : Bool) (v : GoVal)
    (hm : metaErr E te td c = none) :
    (setFieldGo E te td c v).1 =
      (setValueGo c (defStr td) ((setValueGo c (envStr E te) v).1)).1 := by
  unfold setFieldGo
  rcases h1 : setValueGo c (envStr E te) v with ⟨v1, e1⟩
  cases e1 with
  | some m =>
    exfalso
    have hsnd1 := setValueGo_snd c (envStr E te) v
    rw [h1] at hsnd1
    by_cases ha : ¬ envStr E te = "" ∧ c = false
    · unfold metaErr at hm
      rw [if_pos ⟨Or.inl ha.1, ha.2⟩] at hm
      exact Option.noConfusion hm
    · simp [ha] at hsnd1
  | none => rfl

/-- `setField` is idempotent: its error does not depend on the value, and
the value map stabilizes after one application. -/
theorem setFieldGo_idem (E : Env) (te td : String) (c : Bool) (v : GoVal) :
    setFieldGo E te td c (setFieldGo E te td c v).1 = setFieldGo E te td c v := by
  rcases hm : metaErr E te td c with _ | m
  case some =>
    have h1 : (setFieldGo E te td c v).1 = v :=
      setFieldGo_err_val E te td c v m (by rw [setFieldGo_snd, hm])
    rw [h1]
  case none =>
    have hsnd1 : (setFieldGo E te td c v).2 = none := by rw [setFieldGo_snd, hm]
    have hsnd2 : (setFieldGo E te td c (setFieldGo E te td c v).1).2 = none := by
      rw [setFieldGo_snd, hm]
    have hfst1 := setFieldGo_fst_of_ok E te td c v hm
    have hfst2 := setFieldGo_fst_of_ok E te td c (setFieldGo E te td c v).1 hm
    have hval : (setFieldGo E te td c (setFieldGo E te td c v).1).1 =
        (setFieldGo E te td c v).1 := by
      rw [hfst2, hfst1]
      rcases setValueGo_val_cases c (envStr E te) v with hU | ⟨hEv, hNu⟩
      · -- env pass left v unchanged
        rw [hU]
        rcases setValueGo_val_cases c (defStr td) v with hW | ⟨hEv', hNw⟩
        · rw [hW, hU, hW]
        · rw [setValueGo_keep c (envStr E te) _ hNw,
            setValueGo_keep c (defStr td) _ hNw]
      · -- env pass filled the empty field with a non-zero value
        have hDu := setValueGo_keep c (defStr td) _ hNu
        rw [hDu, setValueGo_keep c (envStr E te) _ hNu, hDu]
    calc setFieldGo E te td c (setFieldGo E te td c v).1
        = ((setFieldGo E te td c (setFieldGo E te td c v).1).1,
           (setFieldGo E te td c (setFieldGo E te td c v).1).2) := rfl
      _ = ((setFieldGo E te td c v).1, (setFieldGo E te td c v).2) := by
          rw [hval, hsnd1, hsnd2]
      _ = setFieldGo E te td c v := rfl

/-- `setField` never changes a struct-valued field (the kind switch in
`setValue` has no struct case). -/
theorem setFieldGo_struct_val (E : Env) (te td : String) (c : Bool)
    (fsub : Fields) : (setFieldGo E te td c (.vStruct fsub)).1 = .vStruct fsub := by
  unfold setFieldGo
  rcases h1 : setValueGo c (envStr E te) (GoVal.vStruct fsub) with ⟨v1, e1⟩
  have hv1 : v1 = .vStruct fsub := by
    have h2 := setValueGo_struct_val c (envStr E te) fsub
    rw [h1] at h2
    exact h2
  cases e1 with
  | some m => simpa using hv1
  | none =>
    have h3 := setValueGo_struct_val c (defStr td) fsub
    simp only [hv1]
    simpa using h3

/-- `setField` preserves the struct/non-struct kind of the field value. -/
theorem setFieldGo_isStruct (E : Env) (te td : String) (c : Bool) (v : GoVal) :
    isStructV (setFieldGo E te td c v).1 = isStructV v := by
  unfold setFieldGo
  rcases h1 : setValueGo c (envStr E te) v with ⟨v1, e1⟩
  have hv1 : isStructV v1 = isStructV v := by
    have h2 := setValueGo_isStruct c (envStr E te) v
    rw [h1] at h2
    exact h2
  cases e1 with
  | some m => simpa using hv1
  | none =>
    have h3 := setValueGo_isStruct c (defStr td) v1
    simp only []
    rw [h3, hv1]

/-! ### Claim C7 -/

/-- Parse a string the way `setValue` would for the field's kind: integer
parse for int fields, verbatim for string fields, boolean parse for bool
fields; other kinds are never assigned. -/
def parseAs (v : GoVal) (x : String) : Option GoVal :=
  match v with
  | .vInt _ => (goAtoi x).map .vInt
  | .vStr _ => some (.vStr x)
  | .vBool _ => (goParseBool x).map .vBool
  | _ => none

/-- C7 counterexample: an int field whose stored value is zero, whose
declared environment variable is set to the non-empty parseable string "0",
and whose default literal is "5", resolves to 5 (the default), not to the
environment value 0: the env assignment writes the zero value, which the
subsequent default pass treats as still unset and overwrites. -/
theorem c7_env_zero_value_cex :
    setFieldGo (fun n => if n = "X" then "0" else "") "X" "5" true (.vInt 0) =
      (.vInt 5, none) ∧
    parseAs (.vInt 0) (envStr (fun n => if n = "X" then "0" else "") "X") =
      some (.vInt 0) ∧
    envStr (fun n => if n = "X" then "0" else "") "X" ≠ "" ∧
    GoVal.vInt 5 ≠ GoVal.vInt 0 := by
  refine ⟨?_, ?_, ?_, ?_⟩
  · simp [setFieldGo, setValueGo, envStr, defStr, isEmptyV, goAtoi, digitsVal]
  · simp [parseAs, envStr, goAtoi, digitsVal]
  · simp [envStr]
  · intro h
    rw [GoVal.vInt.injEq] at h
    omega

/-- C7 amended, for a single settable scalar field processed by the engine:
(i) a field whose current value is not the zero value of its kind is never
altered, regardless of metadata or settability; (ii) a zero-valued settable
field whose environment string parses to a *non-zero* value receives the
environment value, regardless of the default; (iii) a zero-valued settable
field whose environment string is unset or unparseable receives the parsed
default.  (When the environment value parses to the zero value, the default
overwrites it — see the counterexample.) -/
theorem c7_field_resolution (E : Env) (te td : String) (c : Bool)
    (v w w' : GoVal) :
    (isEmptyV v = false → (setFieldGo E te td c v).1 = v) ∧
    (isEmptyV v = true → c = true → parseAs v (envStr E te) = some w →
      isEmptyV w = false → (setFieldGo E te td c v).1 = w) ∧
    (isEmptyV v = true → c = true →
      (envStr E te = "" ∨ parseAs v (envStr E te) = none) →
      parseAs v (defStr td) = some w' → (setFieldGo E te td c v).1 = w') := by
  refine ⟨fun h => setFieldGo_keep E te td c v h, ?_, ?_⟩
  · intro hEmp hc hParse hNw
    subst hc
    have hEnv : setValueGo true (envStr E te) v = (w, none) := by
      cases v with
      | vInt n =>
        rcases hA : goAtoi (envStr E te) with _ | k
        · simp [parseAs, hA] at hParse
        · have hne : ¬ envStr E te = "" := by
            intro h0
            rw [h0] at hA
            simp [goAtoi] at hA
          simp only [parseAs, hA, Option.map_some'] at hParse
          simp [setValueGo, hne, hEmp, hA, ← Option.some_inj.mp hParse]
      | vStr s =>
        simp only [parseAs, Option.some_inj] at hParse
        have hne : ¬ envStr E te = "" := by
          intro h0
          rw [h0] at hParse
          rw [← hParse] at hNw
          simp [isEmptyV] at hNw
        simp [setValueGo, hne, hEmp, ← hParse]
      | vBool b =>
        rcases hB : goParseBool (envStr E te) with _ | tb
        · simp [parseAs, hB] at hParse
        · have hne : ¬ envStr E te = "" := by
            intro h0
            rw [h0] at hB
            simp [goParseBool] at hB
          simp only [parseAs, hB, Option.map_some'] at hParse
          simp [setValueGo, hne, hEmp, hB, ← Option.some_inj.mp hParse]
      | vOther z => simp [parseAs] at hParse
      | vStruct sub => simp [parseAs] at hParse
    unfold setFieldGo
    rw [hEnv]
    exact setValueGo_keep true (defStr td) w hNw
  · intro hEmp hc hEnvNone hParse
    subst hc
    have hEnv : setValueGo true (envStr E te) v = (v, none) := by
      rcases hEnvNone with h0 | h0
      · rw [h0]; exact setValueGo_empty_val true v
      · cases v with
        | vInt n =>
          rcases hA : goAtoi (envStr E te) with _ | k
          · by_cases hne : envStr E te = ""
            · rw [hne]; exact setValueGo_empty_val true (GoVal.vInt n)
            · simp [setValueGo, hne, hEmp, hA]
          · simp [parseAs, hA] at h0
        | vBool b =>
          rcases hB : goParseBool (envStr E te) with _ | tb
          · by_cases hne : envStr E te = ""
            · rw [hne]; exact setValueGo_empty_val true (GoVal.vBool b)
            · simp [setValueGo, hne, hEmp, hB]
          · simp [parseAs, hB] at h0
        | vStr s => simp [parseAs] at h0
        | vOther z =>
          by_cases hne : envStr E te = ""
          · rw [hne]; exact setValueGo_empty_val true (GoVal.vOther z)
          · simp [setValueGo, hne, hEmp]
        | vStruct sub =>
          by_cases hne : envStr E te = ""
          · rw [hne]; exact setValueGo_empty_val true (GoVal.vStruct sub)
          · simp [setValueGo, hne, hEmp]
    unfold setFieldGo
    rw [hEnv]
    cases v with
    | vInt n =>
      rcases hA : goAtoi (defStr td) with _ | k
      · simp [parseAs, hA] at hParse
      · have hne : ¬ defStr td = "" := by
          intro h0
          rw [h0] at hA
          simp [goAtoi] at hA
        simp only [parseAs, hA, Option.map_some'] at hParse
        simp [setValueGo, hne, hEmp, hA, ← Option.some_inj.mp hParse]
    | vStr s =>
      have hs : s = "" := by simpa [isEmptyV] using hEmp
      subst hs
      simp only [parseAs, Option.some_inj] at hParse
      by_cases hne : defStr td = ""
      · rw [hne] at hParse
        simp [hne, setValueGo_empty_val, ← hParse]
      · simp [setValueGo, hne, isEmptyV, ← hParse]
    | vBool b =>
      rcases hB : goParseBool (defStr td) with _ | tb
      · simp [parseAs, hB] at hParse
      · have hne : ¬ defStr td = "" := by
          intro h0
          rw [h0] at hB
          simp [goParseBool] at hB
        simp only [parseAs, hB, Option.map_some'] at hParse
        simp [setValueGo, hne, hEmp, hB, ← Option.some_inj.mp hParse]
    | vOther z => simp [parseAs] at hParse
    | vStruct sub => simp [parseAs] at hParse

/-- Witness for the amended C7: a non-empty string field is kept (part i), a
zero int field with env "7" and default "5" resolves to 7 (part ii), and a
zero bool field with no env and default "true" resolves to true (part iii). -/
theorem c7_field_resolution_witness :
    (setFieldGo (fun n => if n = "X" then "7" else "") "X" "5" true
        (.vStr "file")).1 = .vStr "file" ∧
    (setFieldGo (fun n => if n = "X" then "7" else "") "X" "5" true
        (.vInt 0)).1 = .vInt 7 ∧
    (setFieldGo (fun n => if n = "X" then "7" else "") "" "true" true
        (.vBool false)).1 = .vBool true :=
  ⟨(c7_field_resolution _ "X" "5" true (.vStr "file") (.vStr "file")
      (.vStr "file")).1 (by simp [isEmptyV]),
   (c7_field_resolution _ "X" "5" true (.vInt 0) (.vInt 7) (.vInt 7)).2.1
      (by simp [isEmptyV]) rfl
      (by simp [parseAs, envStr, goAtoi, digitsVal])
      (by simp [isEmptyV]),
   (c7_field_resolution _ "" "true" true (.vBool false) (.vBool true)
      (.vBool true)).2.2
      (by simp [isEmptyV]) rfl (Or.inl (by simp [envStr]))
      (by simp [parseAs, defStr, goParseBool])⟩

/-! ### Claim C9 -/

/-- Every top-level field whose metadata yields a value is settable (the only
condition under which a `setField` pass can produce an error). -/
def fieldSettable (E : Env) : Fields → Prop
  | .fnil => True
  | .fcons te td c _ rest => metaErr E te td c = none ∧ fieldSettable E rest

/-- An error-free pass: on a struct whose metadata-carrying fields are all
settable, `innerPass` reports no error, and the output struct still has only
settable metadata (values change, metadata does not). -/
theorem innerPass_ok (E : Env) :
    ∀ fs : Fields, fieldSettable E fs →
      (innerPass E fs).2 = none ∧ fieldSettable E (innerPass E fs).1 := by
  refine fieldsInd ?_ ?_
  · intro _
    exact ⟨rfl, trivial⟩
  · intro te td c v rest ih h
    obtain ⟨hm, hrest⟩ := h
    have hsnd := setFieldGo_snd E te td c v
    rw [hm] at hsnd
    rcases h1 : setFieldGo E te td c v with ⟨v', e'⟩
    rw [h1] at hsnd
    simp only [] at hsnd
    subst hsnd
    obtain ⟨ih1, ih2⟩ := ih hrest
    rcases h2 : innerPass E rest with ⟨rest', e2⟩
    rw [h2] at ih1 ih2
    simp only [] at ih1
    subst ih1
    constructor
    · simp [innerPass, h1, h2]
    · simp only [innerPass, h1, h2]
      exact ⟨hm, ih2⟩

/-- Replacing a field value does not affect settability of the metadata. -/
theorem updateAt_fieldSettable (E : Env) :
    ∀ (fs : Fields) (i : Nat) (w : GoVal), fieldSettable E fs →
      fieldSettable E (updateAt fs i w) := by
  refine fieldsInd ?_ ?_
  · intro _ _ _
    trivial
  · intro te td c v rest ih i w h
    obtain ⟨hm, hrest⟩ := h
    cases i with
    | zero => exact ⟨hm, hrest⟩
    | succ j => exact ⟨hm, ih j w hrest⟩

/-- The outer loop never reports an error when the (top-level) metadata of
the current struct is settable: sub-struct errors are discarded by the
source, and every pass is error-free. -/
theorem setNestedGo_ok (E : Env) :
    ∀ (rem : Fields) (i : Nat) (cur : Fields), fieldSettable E cur →
      (setNestedGo E rem i cur).2 = none ∧
      fieldSettable E (setNestedGo E rem i cur).1 := by
  refine setNestedGo.induct E
    (fun rem i cur => fieldSettable E cur →
      (setNestedGo E rem i cur).2 = none ∧
      fieldSettable E (setNestedGo E rem i cur).1) ?_ ?_ ?_ ?_
  · intro i cur h
    rw [setNestedGo]
    exact ⟨rfl, h⟩
  · intro te td c sub rest i cur _ ih h
    have hcur := updateAt_fieldSettable E cur i
      (.vStruct (setNestedGo E sub 0 sub).1) h
    obtain ⟨ih1, ih2⟩ := ih hcur
    rw [setNestedGo]
    exact ⟨ih1, ih2⟩
  · intro te td c v rest i cur hns cur' m hpass h
    exfalso
    have := (innerPass_ok E cur h).1
    rw [hpass] at this
    exact Option.noConfusion this
  · intro te td c v rest i cur hns cur' hpass ih h
    have hcur' : fieldSettable E cur' := by
      have := (innerPass_ok E cur h).2
      rw [hpass] at this
      exact this
    obtain ⟨ih1, ih2⟩ := ih hcur'
    cases v with
    | vStruct sub => exact absurd rfl (hns sub)
    | vInt n =>
      rw [setNestedGo, hpass]
      · exact ⟨ih1, ih2⟩
      · exact hns
    | vStr s =>
      rw [setNestedGo, hpass]
      · exact ⟨ih1, ih2⟩
      · exact hns
    | vBool b =>
      rw [setNestedGo, hpass]
      · exact ⟨ih1, ih2⟩
      · exact hns
    | vOther z =>
      rw [setNestedGo, hpass]
      · exact ⟨ih1, ih2⟩
      · exact hns

/-- C9 counterexample: `defaults.Set` *can* fault: a record with a
non-settable (unexported) field carrying a `default` tag makes `setValue`
return the "can't set value" error, which `Set` surfaces (and `Init` then
fails with it wrapped). -/
theorem c9_set_error_cex :
    SetGo (fun _ => "") (.fcons "" "a" false (.vStr "") .fnil) =
      (.fcons "" "a" false (.vStr "") .fnil, some "can't set value") := by
  simp [SetGo, setNestedGo, innerPass, setFieldGo, setValueGo, envStr, defStr,
    isEmptyV]

/-- C9 amended: `defaults.Set` returns no error whenever every top-level
field that carries metadata is settable; in particular unparseable metadata
never faults — parse failures degrade to leaving the field untouched — and
errors inside nested structs are discarded.  (A non-settable field with
metadata does fault; see the counterexample.) -/
theorem c9_set_no_error_when_settable (E : Env) (fs : Fields)
    (h : fieldSettable E fs) : (SetGo E fs).2 = none :=
  (setNestedGo_ok E fs 0 fs h).1

/-- Witness for the amended C9: a settable int field with the unparseable
default literal "zz" resolves without error (and is left untouched). -/
theorem c9_set_no_error_when_settable_witness :
    (SetGo (fun _ => "") (.fcons "" "zz" true (.vInt 0) .fnil)).2 = none :=
  c9_set_no_error_when_settable (fun _ => "")
    (.fcons "" "zz" true (.vInt 0) .fnil)
    (by constructor
        · simp [metaErr]
        · trivial)

/-! ### Positional views of a field list (for the idempotence proof) -/

/-- The value of field `i`. -/
def valAt : Fields → Nat → Option GoVal
  | .fnil, _ => none
  | .fcons _ _ _ v _, 0 => some v
  | .fcons _ _ _ _ rest, i + 1 => valAt rest i

theorem lenF_updateAt : ∀ (fs : Fields) (i : Nat) (w : GoVal),
    lenF (updateAt fs i w) = lenF fs := by
  refine fieldsInd ?_ ?_
  · intro _ _; rfl
  · intro te td c v rest ih i w
    cases i with
    | zero => rfl
    | succ j => simp [updateAt, lenF, ih]

theorem valAt_updateAt_eq : ∀ (fs : Fields) (i : Nat) (w : GoVal),
    i < lenF fs → valAt (updateAt fs i w) i = some w := by
  refine fieldsInd ?_ ?_
  · intro i w h; simp [lenF] at h
  · intro te td c v rest ih i w h
    cases i with
    | zero => rfl
    | succ j =>
      simp only [lenF] at h
      exact ih j w (by omega)

theorem valAt_updateAt_ne : ∀ (fs : Fields) (i j : Nat) (w : GoVal),
    j ≠ i → valAt (updateAt fs i w) j = valAt fs j := by
  refine fieldsInd ?_ ?_
  · intro _ _ _ _; rfl
  · intro te td c v rest ih i j w hne
    cases i with
    | zero =>
      cases j with
      | zero => exact absurd rfl hne
      | succ k => rfl
    | succ i' =>
      cases j with
      | zero => rfl
      | succ k => exact ih i' k w (by omega)

theorem updateAt_self : ∀ (fs : Fields) (i : Nat) (w : GoVal),
    valAt fs i = some w → updateAt fs i w = fs := by
  refine fieldsInd ?_ ?_
  · intro i w h; simp [valAt] at h
  · intro te td c v rest ih i w h
    cases i with
    | zero =>
      simp only [valAt, Option.some_inj] at h
      rw [updateAt, h]
    | succ j =>
      simp only [valAt] at h
      rw [updateAt, ih j w h]

theorem dropF_all : ∀ (fs : Fields) (i : Nat), lenF fs ≤ i → dropF i fs = .fnil := by
  refine fieldsInd ?_ ?_
  · intro i _
    cases i with
    | zero => rfl
    | succ j => rfl
  · intro te td c v rest ih i h
    cases i with
    | zero => simp [lenF] at h
    | succ j =>
      simp only [lenF] at h
      exact ih j (by omega)

/-- A position inside the list decomposes the drop into a head field (whose
value `valAt` reports) and the next drop. -/
theorem dropF_decomp : ∀ (fs : Fields) (i : Nat), i < lenF fs →
    ∃ te td c v, dropF i fs = .fcons te td c v (dropF (i + 1) fs) ∧
      valAt fs i = some v := by
  refine fieldsInd ?_ ?_
  · intro i h; simp [lenF] at h
  · intro te td c v rest ih i h
    cases i with
    | zero => exact ⟨te, td, c, v, rfl, rfl⟩
    | succ j =>
      simp only [lenF] at h
      obtain ⟨te', td', c', v', h1, h2⟩ := ih j (by omega)
      exact ⟨te', td', c', v', h1, h2⟩

theorem isStructV_ne_struct {v : GoVal} (h : isStructV v = false) :
    ∀ sub : Fields, v = .vStruct sub → False := by
  intro sub hsub
  subst hsub
  simp [isStructV] at h

/-! ### Pass-level lemmas -/

theorem innerPass_len (E : Env) : ∀ fs : Fields,
    lenF (innerPass E fs).1 = lenF fs := by
  refine fieldsInd ?_ ?_
  · rfl
  · intro te td c v rest ih
    rcases h1 : setFieldGo E te td c v with ⟨v', e'⟩
    cases e' with
    | some m => simp [innerPass, h1, lenF]
    | none =>
      rcases h2 : innerPass E rest with ⟨rest', e2⟩
      rw [h2] at ih
      simp [innerPass, h1, h2, lenF, ih]

/-- A pass never changes the value of a struct-valued field, at any
position. -/
theorem innerPass_valAt_struct (E : Env) : ∀ (fs : Fields) (j : Nat) (sub : Fields),
    valAt fs j = some (.vStruct sub) →
    valAt (innerPass E fs).1 j = some (.vStruct sub) := by
  refine fieldsInd ?_ ?_
  · intro j sub h; simp [valAt] at h
  · intro te td c v rest ih j sub h
    rcases h1 : setFieldGo E te td c v with ⟨v', e'⟩
    cases j with
    | zero =>
      simp only [valAt, Option.some_inj] at h
      subst h
      have hv' : v' = .vStruct sub := by
        have h2 := setFieldGo_struct_val E te td c sub
        rw [h1] at h2
        exact h2
      cases e' with
      | some m => simp [innerPass, h1, valAt, hv']
      | none =>
        rcases h2 : innerPass E rest with ⟨rest', e2⟩
        simp [innerPass, h1, h2, valAt, hv']
    | succ k =>
      simp only [valAt] at h
      cases e' with
      | some m => simpa [innerPass, h1, valAt] using h
      | none =>
        rcases h2 : innerPass E rest with ⟨rest', e2⟩
        have := ih k sub h
        rw [h2] at this
        simpa [innerPass, h1, h2, valAt] using this

/-- A pass preserves the struct/non-struct kind of every field. -/
theorem innerPass_valAt_kind (E : Env) : ∀ (fs : Fields) (j : Nat) (v : GoVal),
    valAt fs j = some v →
    ∃ w, valAt (innerPass E fs).1 j = some w ∧ isStructV w = isStructV v := by
  refine fieldsInd ?_ ?_
  · intro j v h; simp [valAt] at h
  · intro te td c v0 rest ih j v h
    rcases h1 : setFieldGo E te td c v0 with ⟨v', e'⟩
    cases j with
    | zero =>
      simp only [valAt, Option.some_inj] at h
      have hk : isStructV v' = isStructV v := by
        rw [← h]
        have h2 := setFieldGo_isStruct E te td c v0
        rw [h1] at h2
        exact h2
      cases e' with
      | some m => exact ⟨v', by simp [innerPass, h1, valAt], hk⟩
      | none =>
        rcases h2 : innerPass E rest with ⟨rest', e2⟩
        exact ⟨v', by simp [innerPass, h1, h2, valAt], hk⟩
    | succ k =>
      simp only [valAt] at h
      cases e' with
      | some m => exact ⟨v, by simpa [innerPass, h1, valAt] using h, rfl⟩
      | none =>
        rcases h2 : innerPass E rest with ⟨rest', e2⟩
        obtain ⟨w, hw1, hw2⟩ := ih k v h
        rw [h2] at hw1
        exact ⟨w, by simpa [innerPass, h1, h2, valAt] using hw1, hw2⟩

/-- A pass is idempotent: a second pass over the output changes nothing and
reports the same error. -/
theorem innerPass_idem (E : Env) : ∀ fs : Fields,
    innerPass E (innerPass E fs).1 = innerPass E fs := by
  refine fieldsInd ?_ ?_
  · rfl
  · intro te td c v rest ih
    rcases h1 : setFieldGo E te td c v with ⟨v', e'⟩
    have hidem := setFieldGo_idem E te td c v
    rw [h1] at hidem
    cases e' with
    | some m =>
      have hv' : v' = v := by
        have h2 := setFieldGo_err_val E te td c v m (by rw [h1])
        rw [h1] at h2
        exact h2
      subst hv'
      simp [innerPass, h1]
    | none =>
      rcases h2 : innerPass E rest with ⟨rest', e2⟩
      have ih2 : innerPass E rest' = (rest', e2) := by
        have := ih
        rw [h2] at this
        exact this
      simp only [innerPass, h1, h2]
      simp [innerPass, hidem, ih2]

/-- Replacing a struct-valued field by another struct commutes with a pass:
the pass treats struct fields value-independently. -/
theorem innerPass_updateAt_struct (E : Env) :
    ∀ (fs : Fields) (j : Nat) (sub w : Fields),
      valAt fs j = some (.vStruct sub) →
      innerPass E (updateAt fs j (.vStruct w)) =
        (updateAt (innerPass E fs).1 j (.vStruct w), (innerPass E fs).2) := by
  refine fieldsInd ?_ ?_
  · intro j sub w h; simp [valAt] at h
  · intro te td c v rest ih j sub w h
    cases j with
    | zero =>
      simp only [valAt, Option.some_inj] at h
      subst h
      rcases h1 : setFieldGo E te td c (GoVal.vStruct sub) with ⟨v', e'⟩
      have hv' : v' = .vStruct sub := by
        have h2 := setFieldGo_struct_val E te td c sub
        rw [h1] at h2
        exact h2
      subst hv'
      rcases h1' : setFieldGo E te td c (GoVal.vStruct w) with ⟨v'', e''⟩
      have hv'' : v'' = .vStruct w := by
        have h2 := setFieldGo_struct_val E te td c w
        rw [h1'] at h2
        exact h2
      subst hv''
      have he : e'' = e' := by
        have ha := setFieldGo_snd E te td c (GoVal.vStruct sub)
        have hb := setFieldGo_snd E te td c (GoVal.vStruct w)
        rw [h1] at ha
        rw [h1'] at hb
        simp only [] at ha hb
        rw [ha, hb]
      rw [he] at h1'
      cases e' with
      | some m => simp [innerPass, updateAt, h1, h1']
      | none =>
        rcases h2 : innerPass E rest with ⟨rest', e2⟩
        simp [innerPass, updateAt, h1, h1', h2]
    | succ k =>
      simp only [valAt] at h
      rcases h1 : setFieldGo E te td c v with ⟨v', e'⟩
      cases e' with
      | some m => simp [innerPass, updateAt, h1]
      | none =>
        rcases h2 : innerPass E rest with ⟨rest', e2⟩
        have := ih k sub w h
        rw [h2] at this
        simp [innerPass, updateAt, h1, h2, this]

/-! ### The walk/state coherence invariant

`setNestedGo` walks the original suffix `rem` while mutating the whole list
`cur`; real executions keep them coherent: the suffix sits at positions
`i, i+1, …` of `cur`, struct fields there still hold their original values
(passes never change them — `innerPass_valAt_struct`), and non-struct fields
there stay non-struct. -/

def Coh (rem : Fields) (i : Nat) (cur : Fields) : Prop :=
  lenF cur = i + lenF rem ∧
  ∀ j v, valAt rem j = some v →
    (isStructV v = true → valAt cur (i + j) = some v) ∧
    (isStructV v = false →
      ∃ w, valAt cur (i + j) = some w ∧ isStructV w = false)

theorem coh_self (fs : Fields) : Coh fs 0 fs := by
  refine ⟨by omega, ?_⟩
  intro j v h
  constructor
  · intro _; simpa using h
  · intro hv; exact ⟨v, by simpa using h, hv⟩

theorem coh_tail_update (te td : String) (c : Bool) (v : GoVal)
    (rem : Fields) (i : Nat) (cur : Fields) (w : GoVal)
    (h : Coh (.fcons te td c v rem) i cur) :
    Coh rem (i + 1) (updateAt cur i w) := by
  obtain ⟨hlen, hpos⟩ := h
  constructor
  · rw [lenF_updateAt, hlen]
    simp [lenF]
    omega
  · intro j u hj
    have hj' : valAt (Fields.fcons te td c v rem) (j + 1) = some u := hj
    have h2 := hpos (j + 1) u hj'
    have harith : i + (j + 1) = i + 1 + j := by omega
    rw [harith] at h2
    have hne : i + 1 + j ≠ i := by omega
    rw [← valAt_updateAt_ne cur i (i + 1 + j) w hne] at h2
    exact h2

theorem coh_tail_inner (E : Env) (te td : String) (c : Bool) (v : GoVal)
    (rem : Fields) (i : Nat) (cur : Fields)
    (h : Coh (.fcons te td c v rem) i cur) :
    Coh rem (i + 1) (innerPass E cur).1 := by
  obtain ⟨hlen, hpos⟩ := h
  constructor
  · rw [innerPass_len, hlen]
    simp [lenF]
    omega
  · intro j u hj
    have hj' : valAt (Fields.fcons te td c v rem) (j + 1) = some u := hj
    have h2 := hpos (j + 1) u hj'
    have harith : i + (j + 1) = i + 1 + j := by omega
    rw [harith] at h2
    constructor
    · intro hu
      cases u with
      | vStruct sub => exact innerPass_valAt_struct E cur (i + 1 + j) sub (h2.1 hu)
      | vInt n => simp [isStructV] at hu
      | vStr s => simp [isStructV] at hu
      | vBool b => simp [isStructV] at hu
      | vOther z => simp [isStructV] at hu
    · intro hu
      obtain ⟨w, hw1, hw2⟩ := h2.2 hu
      obtain ⟨w', hw1', hw2'⟩ := innerPass_valAt_kind E cur (i + 1 + j) w hw1
      exact ⟨w', hw1', by rw [hw2', hw2]⟩

/-- The head field of a coherent walk is present in `cur` at position `i`. -/
theorem coh_head (te td : String) (c : Bool) (v : GoVal)
    (rem : Fields) (i : Nat) (cur : Fields)
    (h : Coh (.fcons te td c v rem) i cur) :
    (isStructV v = true → valAt cur i = some v) ∧
    (isStructV v = false →
      ∃ w, valAt cur i = some w ∧ isStructV w = false) := by
  have h2 := h.2 0 v rfl
  simpa using h2

theorem coh_len_lt (te td : String) (c : Bool) (v : GoVal)
    (rem : Fields) (i : Nat) (cur : Fields)
    (h : Coh (.fcons te td c v rem) i cur) : i < lenF cur := by
  have := h.1
  simp only [lenF] at this
  omega

/-! ### Run-level preservation lemmas -/

theorem setNestedGo_len (E : Env) : ∀ (rem : Fields) (i : Nat) (cur : Fields),
    lenF (setNestedGo E rem i cur).1 = lenF cur := by
  refine setNestedGo.induct E
    (fun rem i cur => lenF (setNestedGo E rem i cur).1 = lenF cur) ?_ ?_ ?_ ?_
  · intro i cur
    rw [setNestedGo]
  · intro te td c sub rest i cur _ ih
    rw [setNestedGo]
    rw [ih, lenF_updateAt]
  · intro te td c v rest i cur hns cur' m hpass
    cases v with
    | vStruct sub => exact absurd rfl (hns sub)
    | vInt n =>
      rw [setNestedGo, hpass]
      · have := innerPass_len E cur; rw [hpass] at this; exact this
      · exact hns
    | vStr s =>
      rw [setNestedGo, hpass]
      · have := innerPass_len E cur; rw [hpass] at this; exact this
      · exact hns
    | vBool b =>
      rw [setNestedGo, hpass]
      · have := innerPass_len E cur; rw [hpass] at this; exact this
      · exact hns
    | vOther z =>
      rw [setNestedGo, hpass]
      · have := innerPass_len E cur; rw [hpass] at this; exact this
      · exact hns
  · intro te td c v rest i cur hns cur' hpass ih
    have hlen : lenF cur' = lenF cur := by
      have := innerPass_len E cur; rw [hpass] at this; exact this
    cases v with
    | vStruct sub => exact absurd rfl (hns sub)
    | vInt n =>
      rw [setNestedGo, hpass]
      · rw [ih, hlen]
      · exact hns
    | vStr s =>
      rw [setNestedGo, hpass]
      · rw [ih, hlen]
      · exact hns
    | vBool b =>
      rw [setNestedGo, hpass]
      · rw [ih, hlen]
      · exact hns
    | vOther z =>
      rw [setNestedGo, hpass]
      · rw [ih, hlen]
      · exact hns

/-- Unfolding of the outer loop on a struct-kind head. -/
theorem setNestedGo_cons_struct (E : Env) (te td : String) (c : Bool)
    (sub rest : Fields) (i : Nat) (cur : Fields) :
    setNestedGo E (.fcons te td c (.vStruct sub) rest) i cur =
      setNestedGo E rest (i + 1)
        (updateAt cur i (.vStruct (setNestedGo E sub 0 sub).1)) := by
  rw [setNestedGo]

/-- Unfolding of the outer loop on a non-struct head when the pass fails. -/
theorem setNestedGo_cons_fail (E : Env) (te td : String) (c : Bool)
    (v : GoVal) (rest : Fields) (i : Nat) (cur cur' : Fields) (m : String)
    (hv : isStructV v = false) (hpass : innerPass E cur = (cur', some m)) :
    setNestedGo E (.fcons te td c v rest) i cur = (cur', some m) := by
  cases v with
  | vStruct sub => simp [isStructV] at hv
  | vInt n =>
    rw [setNestedGo, hpass]
    exact fun sub h => isStructV_ne_struct hv sub h
  | vStr s =>
    rw [setNestedGo, hpass]
    exact fun sub h => isStructV_ne_struct hv sub h
  | vBool b =>
    rw [setNestedGo, hpass]
    exact fun sub h => isStructV_ne_struct hv sub h
  | vOther z =>
    rw [setNestedGo, hpass]
    exact fun sub h => isStructV_ne_struct hv sub h

/-- Unfolding of the outer loop on a non-struct head when the pass
succeeds. -/
theorem setNestedGo_cons_ok (E : Env) (te td : String) (c : Bool)
    (v : GoVal) (rest : Fields) (i : Nat) (cur cur' : Fields)
    (hv : isStructV v = false) (hpass : innerPass E cur = (cur', none)) :
    setNestedGo E (.fcons te td c v rest) i cur =
      setNestedGo E rest (i + 1) cur' := by
  cases v with
  | vStruct sub => simp [isStructV] at hv
  | vInt n =>
    rw [setNestedGo, hpass]
    exact fun sub h => isStructV_ne_struct hv sub h
  | vStr s =>
    rw [setNestedGo, hpass]
    exact fun sub h => isStructV_ne_struct hv sub h
  | vBool b =>
    rw [setNestedGo, hpass]
    exact fun sub h => isStructV_ne_struct hv sub h
  | vOther z =>
    rw [setNestedGo, hpass]
    exact fun sub h => isStructV_ne_struct hv sub h

/-- The loop touches positions `≥ i` only: a struct value at a position
below `i` is left in place. -/
theorem setNestedGo_struct_at (E : Env) :
    ∀ (rem : Fields) (i : Nat) (cur : Fields) (j : Nat) (w : Fields),
      j < i → valAt cur j = some (.vStruct w) →
      valAt (setNestedGo E rem i cur).1 j = some (.vStruct w) := by
  refine setNestedGo.induct E
    (fun rem i cur => ∀ (j : Nat) (w : Fields), j < i →
      valAt cur j = some (.vStruct w) →
      valAt (setNestedGo E rem i cur).1 j = some (.vStruct w)) ?_ ?_ ?_ ?_
  · intro i cur j w _ h
    rw [setNestedGo]
    exact h
  · intro te td c sub rest i cur _ ih j w hj h
    rw [setNestedGo_cons_struct]
    exact ih j w (by omega) (by rw [valAt_updateAt_ne cur i j _ (by omega)]; exact h)
  · intro te td c v rest i cur hns cur' m hpass j w hj h
    have hv : isStructV v = false := by
      cases v with
      | vStruct sub => exact absurd rfl (hns sub)
      | vInt n => rfl
      | vStr s => rfl
      | vBool b => rfl
      | vOther z => rfl
    rw [setNestedGo_cons_fail E te td c v rest i cur cur' m hv hpass]
    have := innerPass_valAt_struct E cur j w h
    rw [hpass] at this
    exact this
  · intro te td c v rest i cur hns cur' hpass ih j w hj h
    have hv : isStructV v = false := by
      cases v with
      | vStruct sub => exact absurd rfl (hns sub)
      | vInt n => rfl
      | vStr s => rfl
      | vBool b => rfl
      | vOther z => rfl
    rw [setNestedGo_cons_ok E te td c v rest i cur cur' hv hpass]
    have hstep := innerPass_valAt_struct E cur j w h
    rw [hpass] at hstep
    exact ih j w (by omega) hstep

/-- The loop keeps non-struct positions below `i` non-struct. -/
theorem setNestedGo_kind_at (E : Env) :
    ∀ (rem : Fields) (i : Nat) (cur : Fields) (j : Nat) (v : GoVal),
      j < i → valAt cur j = some v → isStructV v = false →
      ∃ w, valAt (setNestedGo E rem i cur).1 j = some w ∧
        isStructV w = false := by
  refine setNestedGo.induct E
    (fun rem i cur => ∀ (j : Nat) (v : GoVal), j < i →
      valAt cur j = some v → isStructV v = false →
      ∃ w, valAt (setNestedGo E rem i cur).1 j = some w ∧
        isStructV w = false) ?_ ?_ ?_ ?_
  · intro i cur j v _ h hv
    rw [setNestedGo]
    exact ⟨v, h, hv⟩
  · intro te td c sub rest i cur _ ih j v hj h hv
    rw [setNestedGo_cons_struct]
    exact ih j v (by omega) (by rw [valAt_updateAt_ne cur i j _ (by omega)]; exact h) hv
  · intro te td c v0 rest i cur hns cur' m hpass j v hj h hv
    have hv0 : isStructV v0 = false := by
      cases v0 with
      | vStruct sub => exact absurd rfl (hns sub)
      | vInt n => rfl
      | vStr s => rfl
      | vBool b => rfl
      | vOther z => rfl
    rw [setNestedGo_cons_fail E te td c v0 rest i cur cur' m hv0 hpass]
    obtain ⟨w, hw1, hw2⟩ := innerPass_valAt_kind E cur j v h
    rw [hpass] at hw1
    exact ⟨w, hw1, by rw [hw2, hv]⟩
  · intro te td c v0 rest i cur hns cur' hpass ih j v hj h hv
    have hv0 : isStructV v0 = false := by
      cases v0 with
      | vStruct sub => exact absurd rfl (hns sub)
      | vInt n => rfl
      | vStr s => rfl
      | vBool b => rfl
      | vOther z => rfl
    rw [setNestedGo_cons_ok E te td c v0 rest i cur cur' hv0 hpass]
    obtain ⟨w, hw1, hw2⟩ := innerPass_valAt_kind E cur j v h
    rw [hpass] at hw1
    exact ih j w (by omega) hw1 (by rw [hw2, hv])

/-- A fully pass-stable state stays pass-stable through the loop, and the
loop reports no error from it. -/
theorem setNestedGo_passStable (E : Env) :
    ∀ (rem : Fields) (i : Nat) (cur : Fields),
      Coh rem i cur → innerPass E cur = (cur, none) →
      innerPass E (setNestedGo E rem i cur).1 =
        ((setNestedGo E rem i cur).1, none) ∧
      (setNestedGo E rem i cur).2 = none := by
  refine setNestedGo.induct E
    (fun rem i cur => Coh rem i cur → innerPass E cur = (cur, none) →
      innerPass E (setNestedGo E rem i cur).1 =
        ((setNestedGo E rem i cur).1, none) ∧
      (setNestedGo E rem i cur).2 = none) ?_ ?_ ?_ ?_
  · intro i cur _ hstable
    rw [setNestedGo]
    exact ⟨hstable, rfl⟩
  · intro te td c sub rest i cur _ ih hcoh hstable
    have hhead : valAt cur i = some (.vStruct sub) :=
      (coh_head te td c _ rest i cur hcoh).1 rfl
    have hupd := innerPass_updateAt_struct E cur i sub
      (setNestedGo E sub 0 sub).1 hhead
    rw [hstable] at hupd
    simp only [] at hupd
    rw [setNestedGo_cons_struct]
    exact ih (coh_tail_update te td c _ rest i cur _ hcoh) hupd
  · intro te td c v rest i cur hns cur' m hpass hcoh hstable
    exfalso
    rw [hstable] at hpass
    exact Option.noConfusion (congrArg Prod.snd hpass)
  · intro te td c v rest i cur hns cur' hpass ih hcoh hstable
    have hv : isStructV v = false := by
      cases v with
      | vStruct sub => exact absurd rfl (hns sub)
      | vInt n => rfl
      | vStr s => rfl
      | vBool b => rfl
      | vOther z => rfl
    have hcur' : cur' = cur := by
      rw [hstable] at hpass
      exact (congrArg Prod.fst hpass).symm
    subst hcur'
    rw [setNestedGo_cons_ok E te td c v rest i cur' cur' hv hpass]
    have hcoh' : Coh rest (i + 1) cur' := by
      have h2 := coh_tail_inner E te td c v rest i cur' hcoh
      rw [hpass] at h2
      exact h2
    exact ih hcoh' hstable

/-- The depth of any field value is bounded by the depth of the struct. -/
theorem depthV_le_depthL : ∀ (fs : Fields) (j : Nat) (v : GoVal),
    valAt fs j = some v → depthV v ≤ depthL fs := by
  refine fieldsInd ?_ ?_
  · intro j v h; simp [valAt] at h
  · intro te td c v0 rest ih j v h
    cases j with
    | zero =>
      simp only [valAt, Option.some_inj] at h
      rw [← h, depthL]
      omega
    | succ k =>
      simp only [valAt] at h
      have := ih k v h
      rw [depthL]
      omega

/-- Re-running the outer loop on its own output changes nothing: the second
walk re-traverses the processed state and every step is a no-op, provided
(inductively, on nesting depth) re-running is a no-op on nested structs. -/
theorem setNestedGo_again (E : Env) (dep : Nat)
    (IH : ∀ sub : Fields, depthL sub < dep →
      setNestedGo E (setNestedGo E sub 0 sub).1 0 (setNestedGo E sub 0 sub).1 =
        setNestedGo E sub 0 sub) :
    ∀ (rem : Fields) (i : Nat) (cur : Fields),
      Coh rem i cur →
      (∀ j sub, valAt rem j = some (.vStruct sub) → depthL sub < dep) →
      setNestedGo E (dropF i (setNestedGo E rem i cur).1) i
          (setNestedGo E rem i cur).1 =
        setNestedGo E rem i cur := by
  refine setNestedGo.induct E
    (fun rem i cur => Coh rem i cur →
      (∀ j sub, valAt rem j = some (.vStruct sub) → depthL sub < dep) →
      setNestedGo E (dropF i (setNestedGo E rem i cur).1) i
          (setNestedGo E rem i cur).1 =
        setNestedGo E rem i cur) ?_ ?_ ?_ ?_
  · intro i cur hcoh _
    have hrun : setNestedGo E Fields.fnil i cur = (cur, none) := by
      rw [setNestedGo]
    have hdrop : dropF i cur = .fnil := by
      refine dropF_all cur i ?_
      have := hcoh.1
      simp only [lenF] at this
      omega
    rw [hrun, hdrop]
    exact hrun
  · intro te td c sub rest i cur _ ihrest hcoh hdep
    have hcoh1 : Coh rest (i + 1)
        (updateAt cur i (.vStruct (setNestedGo E sub 0 sub).1)) :=
      coh_tail_update te td c _ rest i cur _ hcoh
    have hdep1 : ∀ j s0, valAt rest j = some (.vStruct s0) → depthL s0 < dep :=
      fun j s0 h => hdep (j + 1) s0 h
    have hrest := ihrest hcoh1 hdep1
    have hilt : i < lenF cur := coh_len_lt te td c _ rest i cur hcoh
    rw [setNestedGo_cons_struct]
    have hlt : i < lenF (setNestedGo E rest (i + 1)
        (updateAt cur i (.vStruct (setNestedGo E sub 0 sub).1))).1 := by
      rw [setNestedGo_len, lenF_updateAt]
      exact hilt
    have hival : valAt (setNestedGo E rest (i + 1)
        (updateAt cur i (.vStruct (setNestedGo E sub 0 sub).1))).1 i =
        some (.vStruct (setNestedGo E sub 0 sub).1) := by
      refine setNestedGo_struct_at E rest (i + 1) _ i _ (by omega) ?_
      exact valAt_updateAt_eq cur i _ hilt
    obtain ⟨te', td', c', v', hdecomp, hv'⟩ := dropF_decomp _ i hlt
    rw [hival, Option.some_inj] at hv'
    rw [hdecomp, ← hv']
    rw [setNestedGo_cons_struct]
    have hsubdep : depthL sub < dep := hdep 0 sub rfl
    have hsub2 : (setNestedGo E (setNestedGo E sub 0 sub).1 0
        (setNestedGo E sub 0 sub).1).1 = (setNestedGo E sub 0 sub).1 :=
      congrArg Prod.fst (IH sub hsubdep)
    rw [hsub2]
    rw [updateAt_self _ i _ hival]
    exact hrest
  · intro te td c v rest i cur hns cur' m hpass hcoh hdep
    have hv : isStructV v = false := by
      cases v with
      | vStruct sub => exact absurd rfl (hns sub)
      | vInt n => rfl
      | vStr s => rfl
      | vBool b => rfl
      | vOther z => rfl
    have hrun := setNestedGo_cons_fail E te td c v rest i cur cur' m hv hpass
    rw [hrun]
    have hlt : i < lenF cur' := by
      have h1 : lenF cur' = lenF cur := by
        have h0 := innerPass_len E cur
        rw [hpass] at h0
        exact h0
      have h2 := coh_len_lt te td c v rest i cur hcoh
      omega
    have hhead := (coh_head te td c v rest i cur hcoh).2 hv
    obtain ⟨w, hw1, hw2⟩ := hhead
    obtain ⟨w', hw1', hw2'⟩ := innerPass_valAt_kind E cur i w hw1
    rw [hpass] at hw1'
    obtain ⟨te', td', c', v', hdecomp, hv'⟩ := dropF_decomp cur' i hlt
    rw [hw1', Option.some_inj] at hv'
    have hstab : innerPass E cur' = (cur', some m) := by
      have h2 := innerPass_idem E cur
      rw [hpass] at h2
      exact h2
    rw [hdecomp]
    refine setNestedGo_cons_fail E te' td' c' v' _ i cur' cur' m ?_ hstab
    rw [← hv', hw2', hw2]
  · intro te td c v rest i cur hns cur' hpass ihrest hcoh hdep
    have hv : isStructV v = false := by
      cases v with
      | vStruct sub => exact absurd rfl (hns sub)
      | vInt n => rfl
      | vStr s => rfl
      | vBool b => rfl
      | vOther z => rfl
    have hrun := setNestedGo_cons_ok E te td c v rest i cur cur' hv hpass
    rw [hrun]
    have hcoh' : Coh rest (i + 1) cur' := by
      have h2 := coh_tail_inner E te td c v rest i cur hcoh
      rw [hpass] at h2
      exact h2
    have hdep' : ∀ j s0, valAt rest j = some (.vStruct s0) → depthL s0 < dep :=
      fun j s0 h => hdep (j + 1) s0 h
    have hrest := ihrest hcoh' hdep'
    have hlt : i < lenF (setNestedGo E rest (i + 1) cur').1 := by
      rw [setNestedGo_len]
      have h1 : lenF cur' = lenF cur := by
        have h0 := innerPass_len E cur
        rw [hpass] at h0
        exact h0
      have h2 := coh_len_lt te td c v rest i cur hcoh
      omega
    have hhead := (coh_head te td c v rest i cur hcoh).2 hv
    obtain ⟨w, hw1, hw2⟩ := hhead
    obtain ⟨w', hw1', hw2'⟩ := innerPass_valAt_kind E cur i w hw1
    rw [hpass] at hw1'
    obtain ⟨w'', hw1'', hw2''⟩ := setNestedGo_kind_at E rest (i + 1) cur' i w'
      (by omega) hw1' (by rw [hw2', hw2])
    obtain ⟨te', td', c', v', hdecomp, hv'⟩ := dropF_decomp _ i hlt
    rw [hw1'', Option.some_inj] at hv'
    have hstab : innerPass E cur' = (cur', none) := by
      have h2 := innerPass_idem E cur
      rw [hpass] at h2
      exact h2
    have hps := (setNestedGo_passStable E rest (i + 1) cur' hcoh' hstab).1
    rw [hdecomp]
    rw [setNestedGo_cons_ok E te' td' c' v' _ i _ _ (by rw [← hv']; exact hw2'') hps]
    exact hrest

/-- Idempotence of the whole resolution run, by strong induction on the
nesting depth. -/
theorem setNestedGo_idem_all (E : Env) :
    ∀ (dep : Nat) (fs : Fields), depthL fs < dep →
      setNestedGo E (setNestedGo E fs 0 fs).1 0 (setNestedGo E fs 0 fs).1 =
        setNestedGo E fs 0 fs := by
  intro dep
  induction dep with
  | zero => intro fs h; omega
  | succ d ihd =>
    intro fs h
    have hdep : ∀ j sub, valAt fs j = some (.vStruct sub) → depthL sub < d := by
      intro j sub hj
      have h1 := depthV_le_depthL fs j _ hj
      simp only [depthV] at h1
      omega
    have hmain := setNestedGo_again E d ihd fs 0 fs (coh_self fs) hdep
    exact hmain

/-! ### Claim C8 -/

/-- C8: the value-resolution engine is idempotent — for every record and
every fixed environment, running `defaults.Set` twice yields exactly the
same record (and the same error) as running it once. -/
theorem c8_set_idempotent (E : Env) (fs : Fields) :
    SetGo E (SetGo E fs).1 = SetGo E fs :=
  setNestedGo_idem_all E (depthL fs + 1) fs (by omega)

end Cog

